import Mathlib

/-
Verification of the n8n → Sim workflow migration engine
(apps/sim/lib/migration: mappings.ts, types.ts, converter.ts).

The TypeScript source is shallowly embedded:
  * JSON values are the inductive `JValue`; a possibly-undefined JavaScript
    value is `Option JValue` (`none` = `undefined`, `some .jnull` = `null`).
  * JavaScript objects / `Map`s are association lists with
    replace-or-append assignment (`recordSet`) and first-match lookup
    (`recordGet`), mirroring key-ordering semantics of JS objects.
  * `uuidv4()` is modelled by a counter threaded through the conversion;
    the claims under study never depend on the textual shape of ids, only
    on their freshness.
  * Case conversion is modelled on ASCII (the source's regex `[A-Z]` is
    ASCII-only; `toLowerCase` agrees with the ASCII mapping on all
    inputs the claims exercise).
  * `new Date().toISOString()` is modelled by a `now : String` parameter.
-/

/-! ## JSON values and JavaScript primitives -/

/-- A JSON value (the result of `JSON.parse`); numbers are modelled as
integers, which covers every numeric operation the migration code performs. -/
inductive JValue where
  | jnull : JValue
  | jbool : Bool → JValue
  | jnum : Int → JValue
  | jstr : String → JValue
  | jarr : List JValue → JValue
  | jobj : List (String × JValue) → JValue
deriving Repr

/-- JavaScript truthiness of a defined value. -/
def jsTruthy : JValue → Bool
  | .jnull => false
  | .jbool b => b
  | .jnum n => decide (n ≠ 0)
  | .jstr s => decide (s ≠ "")
  | .jarr _ => true
  | .jobj _ => true

/-- Truthiness of a possibly-undefined JavaScript value. -/
def truthyOpt : Option JValue → Bool
  | some v => jsTruthy v
  | none => false

/-- JavaScript `a || b` on possibly-undefined values: the first operand if
truthy, otherwise the second. -/
def jsOr (a b : Option JValue) : Option JValue :=
  if truthyOpt a then a else b

/-- `typeof v === 'object'` combined with truthiness: `v` is a non-null
object in the JavaScript sense (plain objects and arrays qualify,
`null` does not). -/
def isNonNullObject : JValue → Bool
  | .jobj _ => true
  | .jarr _ => true
  | _ => false

/-- Property access `v.k` on a JavaScript value that is known not to be
`null`: `undefined` for anything but a plain object carrying the key.
Access on `null` throws a TypeError in JavaScript and is modelled
explicitly at the single place the source can perform it on an
unconstrained value (the per-node validation loop, `validateNodes`); every
other field read in the source sits behind a check that rules `null`
out. -/
def getField : JValue → String → Option JValue
  | .jobj fs, k => (fs.find? (fun p => p.1 = k)).map (fun p => p.2)
  | _, _ => none

/-- Assignment `r[k] = v` on a JavaScript object / `Map`: replaces the value
at the (unique) existing occurrence of the key in place, otherwise appends
the new key at the end. -/
def recordSet {κ α : Type} [DecidableEq κ] : List (κ × α) → κ → α → List (κ × α)
  | [], k, v => [(k, v)]
  | p :: r, k, v => if p.1 = k then (k, v) :: r else p :: recordSet r k v

/-- Lookup `r[k]` / `r.get(k)`: the value at the first matching key. -/
def recordGet {κ α : Type} [DecidableEq κ] (r : List (κ × α)) (k : κ) : Option α :=
  (r.find? (fun p => p.1 = k)).map (fun p => p.2)

/-! ## ASCII case conversion (mappings.ts helpers) -/

/-- The character class of the source regex `[A-Z]`. -/
def isAsciiUpper (c : Char) : Bool :=
  decide ('A' ≤ c ∧ c ≤ 'Z')

/-- ASCII lowercasing, the fragment of `toLowerCase` the migration exercises. -/
def lowerAscii (c : Char) : Char :=
  if isAsciiUpper c then Char.ofNat (c.toNat + 32) else c

/-- `replace(/([A-Z])/g, '_$1')`: insert an underscore before every ASCII
uppercase letter. -/
def insertUnderscores : List Char → List Char
  | [] => []
  | c :: rest =>
    (if isAsciiUpper c then ['_', c] else [c]) ++ insertUnderscores rest

/-- `split('.')` on a character list: JavaScript `String.prototype.split`
with a single-character separator. -/
def splitOnDot : List Char → List (List Char)
  | [] => [[]]
  | c :: rest =>
    if c = '.' then [] :: splitOnDot rest
    else
      match splitOnDot rest with
      | s :: ss => (c :: s) :: ss
      | [] => [[c]]

/-! ## mappings.ts -/

/-- One entry of the static n8n-type → Sim-type table (types.ts
`BlockTypeMapping`). -/
structure BlockTypeMapping where
  n8nType : String
  simType : String
  defaultHeight : Int
deriving Repr, DecidableEq

/-- The static mapping table `BLOCK_TYPE_MAPPINGS` from mappings.ts,
in source order. -/
def BLOCK_TYPE_MAPPINGS : List BlockTypeMapping := [
  ⟨"n8n-nodes-base.cron", "schedule", 172⟩,
  ⟨"n8n-nodes-base.webhook", "webhook", 172⟩,
  ⟨"n8n-nodes-base.manualTrigger", "manual_trigger", 143⟩,
  ⟨"n8n-nodes-base.scheduleTrigger", "schedule", 172⟩,
  ⟨"n8n-nodes-base.mySql", "mysql", 230⟩,
  ⟨"n8n-nodes-base.postgres", "postgresql", 230⟩,
  ⟨"n8n-nodes-base.mongodb", "mongodb", 230⟩,
  ⟨"n8n-nodes-base.redis", "function", 230⟩,
  ⟨"n8n-nodes-base.gmail", "gmail", 288⟩,
  ⟨"n8n-nodes-base.slack", "slack", 317⟩,
  ⟨"n8n-nodes-base.telegram", "telegram", 259⟩,
  ⟨"n8n-nodes-base.discord", "discord", 259⟩,
  ⟨"n8n-nodes-base.microsoftTeams", "microsoft_teams", 143⟩,
  ⟨"n8n-nodes-base.microsoftOutlook", "outlook", 201⟩,
  ⟨"n8n-nodes-base.googleSheets", "google_sheets", 259⟩,
  ⟨"n8n-nodes-base.googleDrive", "google_drive", 259⟩,
  ⟨"n8n-nodes-base.dropbox", "dropbox", 259⟩,
  ⟨"n8n-nodes-base.airtable", "airtable", 259⟩,
  ⟨"n8n-nodes-base.if", "condition", 259⟩,
  ⟨"n8n-nodes-base.switch", "router", 259⟩,
  ⟨"n8n-nodes-base.function", "function", 143⟩,
  ⟨"n8n-nodes-base.code", "function", 143⟩,
  ⟨"n8n-nodes-base.httpRequest", "api", 259⟩,
  ⟨"n8n-nodes-base.webhook", "webhook", 172⟩,
  ⟨"n8n-nodes-base.stripe", "stripe", 143⟩,
  ⟨"n8n-nodes-base.wait", "wait", 143⟩,
  ⟨"n8n-nodes-base.set", "function", 143⟩,
  ⟨"n8n-nodes-base.merge", "function", 143⟩]

/-- The pair returned by `getSimBlockType`. -/
structure ResolvedBlockType where
  simType : String
  defaultHeight : Int
deriving Repr, DecidableEq

/-- `parts[parts.length - 1]`: the last element of a list of segments
(the empty segment when the list is empty, which `split` never produces). -/
def lastSegment : List (List Char) → List Char
  | [] => []
  | [s] => s
  | _ :: s :: ss => lastSegment (s :: ss)

/-- mappings.ts `getSimBlockType`: table lookup, then the
camel-case → snake-case heuristic on the last `.`-separated segment,
then the generic `function` fallback. -/
def getSimBlockType (n8nType : String) : ResolvedBlockType :=
  match BLOCK_TYPE_MAPPINGS.find? (fun m => m.n8nType = n8nType) with
  | some m => ⟨m.simType, m.defaultHeight⟩
  | none =>
    let parts := splitOnDot n8nType.toList
    if parts.length > 1 then
      let baseType := lastSegment parts
      let snakeCase := String.mk ((insertUnderscores baseType).map lowerAscii)
      ⟨snakeCase, 230⟩
    else
      ⟨"function", 143⟩

/-- The fixed list of known trigger node types in mappings.ts
`isTriggerNode`. -/
def knownTriggerTypes : List String := [
  "n8n-nodes-base.cron",
  "n8n-nodes-base.webhook",
  "n8n-nodes-base.manualTrigger",
  "n8n-nodes-base.scheduleTrigger",
  "n8n-nodes-base.stripe",
  "n8n-nodes-base.telegramTrigger",
  "n8n-nodes-base.slackTrigger",
  "n8n-nodes-base.githubTrigger"]

/-- mappings.ts `isTriggerNode`, which only inspects `node.type`; the caller
passes `index === 0` as `isFirstNode`. -/
def isTriggerNode (nodeType : String) (isFirstNode : Bool) : Bool :=
  if nodeType ∈ knownTriggerTypes then true
  else if nodeType.endsWith "Trigger" then true
  else isFirstNode

/-- mappings.ts `DEFAULT_LAYOUT`. -/
def DEFAULT_LAYOUT : Int × Int := (250, 172)

/-! ## Specification-side definitions for the type-resolution claim -/

/-- The last `.`-separated segment of a character list: drop characters while
a dot remains, keep the dot-free suffix. -/
def afterLastDot : List Char → List Char
  | [] => []
  | c :: rest => if '.' ∈ c :: rest then afterLastDot rest else c :: rest

/-- Snake-casing with an underscore inserted before every ASCII uppercase
letter (including a leading one), everything lowercased. -/
def snakeAllChars : List Char → List Char
  | [] => []
  | c :: rest =>
    (if isAsciiUpper c then ['_', lowerAscii c] else [lowerAscii c]) ++ snakeAllChars rest

/-- Snake-casing on strings, underscore before every uppercase letter. -/
def snakeCaseAllSpec (s : String) : String := String.mk (snakeAllChars s.toList)

/-- The specification's snake-casing: an underscore inserted before each
internal uppercase letter only (a leading uppercase letter is merely
lowercased), everything lowercased. -/
def claimSnakeInternal (s : String) : String :=
  String.mk (match s.toList with
    | [] => []
    | c :: rest => lowerAscii c :: snakeAllChars rest)

/-! ## JSON serialization (`JSON.stringify`, used for condition parameters) -/

/-- Escaping of one character inside a JSON string literal. -/
def escapeJsonChar (c : Char) : List Char :=
  if c = '"' then ['\\', '"']
  else if c = '\\' then ['\\', '\\']
  else [c]

/-- A JSON string literal. -/
def quoteJson (s : String) : String :=
  "\"" ++ String.mk (s.toList.foldr (fun c acc => escapeJsonChar c ++ acc) []) ++ "\""

mutual

/-- `JSON.stringify` on a JSON value. -/
def jsonStringify : JValue → String
  | .jnull => "null"
  | .jbool true => "true"
  | .jbool false => "false"
  | .jnum n => toString n
  | .jstr s => quoteJson s
  | .jarr xs => "[" ++ jsonStringifyArr xs ++ "]"
  | .jobj fs => "\x7b" ++ jsonStringifyObj fs ++ "\x7d"

/-- Comma-separated serialization of array elements. -/
def jsonStringifyArr : List JValue → String
  | [] => ""
  | [v] => jsonStringify v
  | v :: w :: rest => jsonStringify v ++ "," ++ jsonStringifyArr (w :: rest)

/-- Comma-separated serialization of object fields. -/
def jsonStringifyObj : List (String × JValue) → String
  | [] => ""
  | [(k, v)] => quoteJson k ++ ":" ++ jsonStringify v
  | (k, v) :: p :: rest =>
    quoteJson k ++ ":" ++ jsonStringify v ++ "," ++ jsonStringifyObj (p :: rest)

end

/-! ## The external Block Registry collaborator (imported from `@/blocks`) -/

/-- The declared default of a sub-block definition: absent, a fixed value, or
a zero-argument value-producing function (the source tests
`typeof subBlockDef.value === 'function'` and calls it). -/
inductive SubBlockDefault where
  | absent : SubBlockDefault
  | fixed : JValue → SubBlockDefault
  | computed : (Unit → JValue) → SubBlockDefault

/-- One declared sub-block (configuration slot) of a registered block type. -/
structure SubBlockDef where
  id : String
  type : String
  value : SubBlockDefault

/-- One declared output port: either a bare type string or a record with a
type and an optional description. -/
inductive OutputDecl where
  | typeOnly : String → OutputDecl
  | full : String → Option String → OutputDecl

/-- A block definition from the target platform's registry. The source reads
both fields through optional chaining (`blockDef?.subBlocks`,
`blockDef?.outputs`), so each may be absent. -/
structure BlockDef where
  subBlocks : Option (List SubBlockDef)
  outputs : Option (List (String × OutputDecl))

/-- The external collaborators of converter.ts: `getBlock` (the Block
Registry) and `isValidBlockType` (the Type Existence Check), both imported
from `@/blocks`. The conversion theorems are universally quantified over
this interface. -/
structure Registry where
  getBlock : String → Option BlockDef
  isValidBlockType : String → Bool

/-! ## n8n source data model (types.ts) -/

/-- types.ts `N8NNode` (the optional `credentials` bag is never read by the
converter and is omitted). -/
structure N8NNode where
  name : String
  type : String
  position : Int × Int
  parameters : List (String × JValue)
  typeVersion : Int

/-- types.ts `N8NConnection`. -/
structure N8NConnection where
  node : String
  type : String
  index : Int

/-- The value of one connection-table entry; `main` is read as
`connectionData.main || []`, so it may be absent. -/
structure ConnectionData where
  main : Option (List (List N8NConnection))

/-- types.ts `N8NWorkflow`. -/
structure N8NWorkflow where
  name : Option String
  nodes : List N8NNode
  connections : List (String × ConnectionData)

/-! ## Sim target data model (types.ts) -/

/-- types.ts `SimSubBlock`; `value` is a JavaScript value, where `none`
models `undefined` and `some .jnull` models `null`. -/
structure SimSubBlock where
  id : String
  type : String
  value : Option JValue

/-- One output port of a Sim block. -/
structure SimOutput where
  type : String
  description : String

/-- types.ts `SimBlock`; block ids are modelled as the naturals produced by
the fresh-id counter. `layout` is (measuredWidth, measuredHeight). -/
structure SimBlock where
  id : Nat
  type : String
  name : String
  position : Int × Int
  enabled : Bool
  horizontalHandles : Bool
  advancedMode : Bool
  triggerMode : Bool
  height : Int
  subBlocks : List (String × SimSubBlock)
  outputs : List (String × SimOutput)
  layout : Int × Int

/-- types.ts `SimEdge` (its `data` field is always the empty object and is
omitted). -/
structure SimEdge where
  id : Nat
  source : Nat
  target : Nat
  sourceHandle : String
  targetHandle : String
  type : String

/-- Workflow metadata. -/
structure SimMetadata where
  name : String
  description : String
  exportedAt : String

/-- The `state` part of a Sim workflow; `loops`, `parallels` and
`variables` are always empty and are omitted. -/
structure SimWorkflowState where
  blocks : List (Nat × SimBlock)
  edges : List SimEdge
  metadata : SimMetadata

/-- types.ts `SimWorkflow`. -/
structure SimWorkflow where
  version : String
  exportedAt : String
  state : SimWorkflowState

/-- types.ts `MigrationResult`: either a workflow plus optional warnings, or
an error string. -/
inductive MigrationResult where
  | success : SimWorkflow → Option (List String) → MigrationResult
  | failure : String → MigrationResult

/-! ## converter.ts: parameter → sub-block extraction -/

/-- Parameter access `node.parameters[key]`. -/
def lookupParam (node : N8NNode) (key : String) : Option JValue :=
  recordGet node.parameters key

/-- The inline value-resolution chain of `convertParametersToSubBlocks`:
the nested if/else of converter.ts lines 168–214, in source order. The
result is the JavaScript value stored into the slot (`none` = undefined). -/
def computeSlotValue (node : N8NNode) (simType : String) (sbDef : SubBlockDef) :
    Option JValue :=
  match lookupParam node sbDef.id with
  | some v => some v
  | none =>
    if sbDef.id = "code" then
      jsOr (lookupParam node "jsCode")
        (jsOr (lookupParam node "functionCode")
          (jsOr (lookupParam node "code")
            (jsOr (lookupParam node "script") (some JValue.jnull))))
    else if sbDef.id = "message" ∧
        (truthyOpt (lookupParam node "text") = true ∨
         truthyOpt (lookupParam node "body") = true) then
      jsOr (lookupParam node "text")
        (jsOr (lookupParam node "body") (lookupParam node "message"))
    else if sbDef.id = "to" ∧ truthyOpt (lookupParam node "sendTo") = true then
      lookupParam node "sendTo"
    else if sbDef.id = "language" ∧ simType = "function" then
      some (JValue.jstr "javascript")
    else if sbDef.id = "condition" ∧ truthyOpt (lookupParam node "conditions") = true then
      some (JValue.jstr (jsonStringify ((lookupParam node "conditions").getD JValue.jnull)))
    else
      match sbDef.value with
      | .computed f => some (f ())
      | .fixed v => some v
      | .absent => some JValue.jnull

/-- The generic fallback slot for one source parameter (converter.ts lines
224–230): string values longer than 100 characters get the long-form text
slot type, everything else the short-form type. -/
def fallbackSubBlock (k : String) (v : JValue) : SimSubBlock :=
  { id := k,
    type :=
      match v with
      | .jstr s => if s.length > 100 then "long-input" else "short-input"
      | _ => "short-input",
    value := some v }

/-- converter.ts `convertParametersToSubBlocks`: slots from the registry's
declared definitions when present (an empty declared list still counts as
present, as in the source's truthiness test), otherwise one generic slot
per source parameter. -/
def convertParametersToSubBlocks (reg : Registry) (node : N8NNode) (simType : String) :
    List (String × SimSubBlock) :=
  match (reg.getBlock simType).bind (fun bd => bd.subBlocks) with
  | some defs =>
    defs.foldl
      (fun acc d =>
        recordSet acc d.id
          { id := d.id, type := d.type, value := computeSlotValue node simType d })
      []
  | none =>
    node.parameters.foldl (fun acc p => recordSet acc p.1 (fallbackSubBlock p.1 p.2)) []

/-- converter.ts `generateOutputsForBlockType`: declared outputs when the
registry has them (a bare type string gets a synthesized description, as
does a declared record without one), otherwise a single generic `result`
port. -/
def generateOutputsForBlockType (reg : Registry) (blockType : String) :
    List (String × SimOutput) :=
  match (reg.getBlock blockType).bind (fun bd => bd.outputs) with
  | some outs =>
    outs.foldl
      (fun acc p =>
        recordSet acc p.1
          (match p.2 with
           | .typeOnly t => { type := t, description := p.1 ++ " output" }
           | .full t d =>
             { type := t,
               description :=
                 match d with
                 | some s => if s = "" then p.1 ++ " output" else s
                 | none => p.1 ++ " output" }))
      []
  | none => [("result", { type := "any", description := "Output from block execution" })]

/-! ## converter.ts: node translation (phase 1) -/

/-- The warning pushed when the Type Existence Check rejects a resolved
type. -/
def unavailableTypeWarning (simType nodeName nodeType : String) : String :=
  "Block type \"" ++ simType ++ "\" not available in Sim. Node \"" ++ nodeName ++
    "\" (" ++ nodeType ++ ") converted to function block."

/-- The accumulator of the node-translation pass: the fresh-id counter, the
name → block-id map, the blocks record and the warning list. -/
structure NodeConvState where
  counter : Nat
  nodeIdMap : List (String × Nat)
  blocks : List (Nat × SimBlock)
  warnings : List String

/-- Construction of the Sim block record for one retained node
(converter.ts lines 53–73). -/
def mkSimBlock (reg : Registry) (blockId : Nat) (simType : String) (defaultHeight : Int)
    (triggerMode : Bool) (node : N8NNode) : SimBlock :=
  { id := blockId, type := simType, name := node.name, position := node.position,
    enabled := true, horizontalHandles := true, advancedMode := false,
    triggerMode := triggerMode, height := defaultHeight,
    subBlocks := convertParametersToSubBlocks reg node simType,
    outputs := generateOutputsForBlockType reg simType,
    layout := (DEFAULT_LAYOUT.1, defaultHeight) }

/-- The block built for one retained node: the resolved type and height
when the Type Existence Check accepts them (converter.ts line 36), the
generic `function` fallback with height 143 otherwise (lines 39–43). -/
def blockForNode (reg : Registry) (blockId : Nat) (idx : Nat) (node : N8NNode) :
    SimBlock :=
  let r := getSimBlockType node.type
  let valid := reg.isValidBlockType r.simType
  mkSimBlock reg blockId (if valid then r.simType else "function")
    (if valid then r.defaultHeight else 143)
    (isTriggerNode node.type (decide (idx = 0))) node

/-- The warnings pushed while translating one retained node: exactly one
when the Type Existence Check rejects the resolved type, none otherwise
(converter.ts line 40). -/
def warningsForNode (reg : Registry) (node : N8NNode) : List String :=
  if reg.isValidBlockType (getSimBlockType node.type).simType then []
  else [unavailableTypeWarning (getSimBlockType node.type).simType node.name node.type]

/-- One iteration of the `forEach` over source nodes (converter.ts lines
27–76): sticky notes are skipped, every other node is resolved, checked
against the Type Existence Check, converted and recorded. -/
def processNode (reg : Registry) (st : NodeConvState) (idx : Nat) (node : N8NNode) :
    NodeConvState :=
  if node.type = "n8n-nodes-base.stickyNote" then st
  else
    { counter := st.counter + 1,
      nodeIdMap := recordSet st.nodeIdMap node.name st.counter,
      blocks := st.blocks ++ [(st.counter, blockForNode reg st.counter idx node)],
      warnings := st.warnings ++ warningsForNode reg node }

/-- The indexed `forEach` over all source nodes. -/
def processNodes (reg : Registry) : NodeConvState → Nat → List N8NNode → NodeConvState
  | st, _, [] => st
  | st, idx, n :: rest => processNodes reg (processNode reg st idx n) (idx + 1) rest

/-! ## converter.ts: connection translation (phase 2) -/

/-- The warning for an unresolved connection source. -/
def sourceNotFoundWarning (name : String) : String :=
  "Source node \"" ++ name ++ "\" not found in node map"

/-- The warning for an unresolved connection target. -/
def targetNotFoundWarning (name : String) : String :=
  "Target node \"" ++ name ++ "\" not found in node map"

/-- The accumulator of the connection-translation pass. -/
structure EdgeConvState where
  counter : Nat
  edges : List SimEdge
  warnings : List String

/-- Translation of one connection entry (converter.ts lines 90–118): an
unresolved target name yields one warning and no edge; otherwise one edge
is emitted, whose source handle depends on the source block's type and the
branch index. Reading `.type` off a missing source block would throw in
JavaScript, which the surrounding try/catch converts into a failure. -/
def convertSingleConnection (blocks : List (Nat × SimBlock))
    (nodeIdMap : List (String × Nat)) (sourceId : Nat) (outputIndex : Nat)
    (conn : N8NConnection) (st : EdgeConvState) : Except String EdgeConvState :=
  match recordGet nodeIdMap conn.node with
  | none => .ok { st with warnings := st.warnings ++ [targetNotFoundWarning conn.node] }
  | some targetId =>
    match recordGet blocks sourceId with
    | none => .error "Cannot read properties of undefined (reading 'type')"
    | some sourceBlock =>
      let sourceHandle :=
        if sourceBlock.type = "condition" then
          if outputIndex = 0 then "condition-cond-true" else "condition-cond-else"
        else "source"
      .ok { counter := st.counter + 1,
            edges := st.edges ++
              [{ id := st.counter, source := sourceId, target := targetId,
                 sourceHandle := sourceHandle, targetHandle := "target",
                 type := "default" }],
            warnings := st.warnings }

/-- The `forEach` over one branch's fan-out targets. -/
def convertGroup (blocks : List (Nat × SimBlock)) (nodeIdMap : List (String × Nat))
    (sourceId : Nat) (outputIndex : Nat) :
    List N8NConnection → EdgeConvState → Except String EdgeConvState
  | [], st => .ok st
  | cn :: rest, st => do
    let st2 ← convertSingleConnection blocks nodeIdMap sourceId outputIndex cn st
    convertGroup blocks nodeIdMap sourceId outputIndex rest st2

/-- The indexed `forEach` over the branch groups of one connection entry. -/
def convertGroups (blocks : List (Nat × SimBlock)) (nodeIdMap : List (String × Nat))
    (sourceId : Nat) :
    Nat → List (List N8NConnection) → EdgeConvState → Except String EdgeConvState
  | _, [], st => .ok st
  | outputIndex, g :: gs, st => do
    let st2 ← convertGroup blocks nodeIdMap sourceId outputIndex g st
    convertGroups blocks nodeIdMap sourceId (outputIndex + 1) gs st2

/-- Translation of one connection-table entry (converter.ts lines 79–120):
an unresolved source name yields one warning and skips the whole group. -/
def convertConnectionEntry (blocks : List (Nat × SimBlock))
    (nodeIdMap : List (String × Nat)) (entry : String × ConnectionData)
    (st : EdgeConvState) : Except String EdgeConvState :=
  match recordGet nodeIdMap entry.1 with
  | none => .ok { st with warnings := st.warnings ++ [sourceNotFoundWarning entry.1] }
  | some sourceId => convertGroups blocks nodeIdMap sourceId 0 (entry.2.main.getD []) st

/-- The loop over all connection-table entries. -/
def convertConnectionEntries (blocks : List (Nat × SimBlock))
    (nodeIdMap : List (String × Nat)) :
    List (String × ConnectionData) → EdgeConvState → Except String EdgeConvState
  | [], st => .ok st
  | e :: es, st => do
    let st2 ← convertConnectionEntry blocks nodeIdMap e st
    convertConnectionEntries blocks nodeIdMap es st2

/-! ## converter.ts: the main conversion -/

/-- Assembly of the target workflow (converter.ts lines 123–138); the
metadata name is `n8nWorkflow.name || 'Migrated from n8n'`. -/
def assembleWorkflow (now : String) (wf : N8NWorkflow) (blocks : List (Nat × SimBlock))
    (edges : List SimEdge) : SimWorkflow :=
  { version := "1.0", exportedAt := now,
    state :=
      { blocks := blocks, edges := edges,
        metadata :=
          { name :=
              match wf.name with
              | some s => if s = "" then "Migrated from n8n" else s
              | none => "Migrated from n8n",
            description := "Workflow migrated from n8n automation platform",
            exportedAt := now } } }

/-- Phases 2–3 of the conversion, starting from the node-translation
result `s1`. -/
def convertPhases (now : String) (wf : N8NWorkflow) (s1 : NodeConvState) :
    MigrationResult :=
  match convertConnectionEntries s1.blocks s1.nodeIdMap wf.connections
      ⟨s1.counter, [], s1.warnings⟩ with
  | .error e => .failure e
  | .ok s2 =>
    .success (assembleWorkflow now wf s1.blocks s2.edges)
      (if s2.warnings.length > 0 then some s2.warnings else none)

/-- converter.ts `convertN8NToSim`; the export timestamp is the `now`
parameter, and any fault during the pass surfaces as a failure result (the
source's surrounding try/catch). -/
def convertN8NToSim (reg : Registry) (now : String) (wf : N8NWorkflow) :
    MigrationResult :=
  convertPhases now wf (processNodes reg ⟨0, [], [], []⟩ 0 wf.nodes)

/-! ## converter.ts: `validateN8NWorkflow` -/

/-- The verdict record `{valid, error?}`. -/
structure ValidateResult where
  valid : Bool
  error : Option String
deriving Repr, DecidableEq

/-- `typeof v === 'object'` (true for plain objects, arrays and `null`). -/
def jsTypeofIsObject : JValue → Bool
  | .jobj _ => true
  | .jarr _ => true
  | .jnull => true
  | _ => false

/-- `typeof` test on a possibly-undefined value. -/
def jsTypeofIsObjectOpt : Option JValue → Bool
  | some v => jsTypeofIsObject v
  | none => false

/-- `typeof v === 'string'` on a possibly-undefined value. -/
def jsIsString : Option JValue → Bool
  | some (.jstr _) => true
  | _ => false

/-- `Array.isArray` on a possibly-undefined value. -/
def jsIsArray : Option JValue → Bool
  | some (.jarr _) => true
  | _ => false

/-- `.length` of an array value (only read behind an `Array.isArray`
guard in the source). -/
def jsArrayLen : Option JValue → Nat
  | some (.jarr l) => l.length
  | _ => 0

/-- The elements of an array value. -/
def jsArrayElems : Option JValue → List JValue
  | some (.jarr l) => l
  | _ => []

/-- The string interpolated for `node.name` in validation messages; the
name check runs first, so at every use this is the node's (non-empty
string) name. -/
def nodeNameString (n : JValue) : String :=
  match getField n "name" with
  | some (.jstr s) => s
  | _ => ""

/-- The per-node loop of `validateN8NWorkflow` (converter.ts lines
287–297), returning at the first failing node. The first thing evaluated
for each element is the property access `node.name`; when the element is
`null` (possible, since the array comes from arbitrary parsed JSON) that
access throws a TypeError — `validateN8NWorkflow` has no try/catch, so
the exception escapes instead of a verdict being returned. The thrown
exception is the `Except.error` case. -/
def validateNodes : List JValue → Except String ValidateResult
  | [] => .ok ⟨true, none⟩
  | n :: rest =>
    match n with
    | .jnull => .error "Cannot read properties of null (reading 'name')"
    | _ =>
      if truthyOpt (getField n "name") = false ∨
          jsIsString (getField n "name") = false then
        .ok ⟨false, some "Invalid node: missing or invalid \"name\" field"⟩
      else if truthyOpt (getField n "type") = false ∨
          jsIsString (getField n "type") = false then
        .ok ⟨false, some ("Invalid node \"" ++ nodeNameString n ++
          "\": missing or invalid \"type\" field")⟩
      else if truthyOpt (getField n "position") = false ∨
          jsIsArray (getField n "position") = false ∨
          ¬ jsArrayLen (getField n "position") = 2 then
        .ok ⟨false, some ("Invalid node \"" ++ nodeNameString n ++
          "\": missing or invalid \"position\" field")⟩
      else validateNodes rest

/-- converter.ts `validateN8NWorkflow`: the shallow structural checks on an
arbitrary parsed value, in source order, returning at the first failure.
The top-level field reads are all guarded (they run only after `data` has
passed the non-null-object check), so only the per-node loop can throw. -/
def validateN8NWorkflow (data : JValue) : Except String ValidateResult :=
  if jsTruthy data = false ∨ jsTypeofIsObject data = false then
    .ok ⟨false, some "Invalid workflow data: must be an object"⟩
  else if truthyOpt (getField data "nodes") = false ∨
      jsIsArray (getField data "nodes") = false then
    .ok ⟨false, some "Invalid workflow: missing or invalid \"nodes\" array"⟩
  else if jsArrayLen (getField data "nodes") = 0 then
    .ok ⟨false, some "Invalid workflow: must contain at least one node"⟩
  else if truthyOpt (getField data "connections") = false ∨
      jsTypeofIsObjectOpt (getField data "connections") = false then
    .ok ⟨false, some "Invalid workflow: missing or invalid \"connections\" object"⟩
  else validateNodes (jsArrayElems (getField data "nodes"))

/-! ## Specification-side predicates for the validation claim -/

/-- The node's `name` field is a non-empty string. -/
def nodeNameOk (n : JValue) : Bool :=
  match getField n "name" with
  | some (.jstr s) => decide (¬ s = "")
  | _ => false

/-- The node's `type` field is a non-empty string. -/
def nodeTypeOk (n : JValue) : Bool :=
  match getField n "type" with
  | some (.jstr s) => decide (¬ s = "")
  | _ => false

/-- The node's `position` field is a 2-element array. -/
def nodePosOk (n : JValue) : Bool :=
  match getField n "position" with
  | some (.jarr l) => decide (l.length = 2)
  | _ => false

/-- All three per-node checks pass. -/
def specNodeOk (n : JValue) : Prop :=
  nodeNameOk n = true ∧ nodeTypeOk n = true ∧ nodePosOk n = true

/-- The distinct message produced for the first failing check of an
invalid node. -/
def firstNodeFailureMsg (n : JValue) : String :=
  if nodeNameOk n = false then "Invalid node: missing or invalid \"name\" field"
  else if nodeTypeOk n = false then
    "Invalid node \"" ++ nodeNameString n ++ "\": missing or invalid \"type\" field"
  else "Invalid node \"" ++ nodeNameString n ++ "\": missing or invalid \"position\" field"

/-! ## Specification-side strategy chain for the sub-block claim -/

/-- The first strategy verdict that is not a pass. -/
def firstSome {α : Type} : List (Option α) → Option α
  | [] => none
  | some v :: _ => some v
  | none :: rest => firstSome rest

/-- Strategy 1: a source parameter whose key exactly matches the slot id. -/
def strategyExactKey (node : N8NNode) (sbDef : SubBlockDef) : Option (Option JValue) :=
  match lookupParam node sbDef.id with
  | some v => some (some v)
  | none => none

/-- Strategy 2: for slot id "code", the fixed priority list of alternate
source parameter keys used by code-execution nodes (`a || b || … || null`). -/
def strategyCodeAlternates (node : N8NNode) (sbDef : SubBlockDef) :
    Option (Option JValue) :=
  if sbDef.id = "code" then
    some (jsOr (lookupParam node "jsCode")
      (jsOr (lookupParam node "functionCode")
        (jsOr (lookupParam node "code")
          (jsOr (lookupParam node "script") (some JValue.jnull)))))
  else none

/-- Strategy 3: for slot id "message", the alternate keys used by
messaging nodes, guarded on one of them being truthy. -/
def strategyMessageAlternates (node : N8NNode) (sbDef : SubBlockDef) :
    Option (Option JValue) :=
  if sbDef.id = "message" ∧
      (truthyOpt (lookupParam node "text") = true ∨
       truthyOpt (lookupParam node "body") = true) then
    some (jsOr (lookupParam node "text")
      (jsOr (lookupParam node "body") (lookupParam node "message")))
  else none

/-- Strategy 4: for slot id "to", the known recipient alternate key. -/
def strategyToAlternate (node : N8NNode) (sbDef : SubBlockDef) :
    Option (Option JValue) :=
  if sbDef.id = "to" ∧ truthyOpt (lookupParam node "sendTo") = true then
    some (lookupParam node "sendTo")
  else none

/-- Strategy 5: for slot id "language" on the generic code-execution
fallback type, a fixed default. -/
def strategyLanguageDefault (simType : String) (sbDef : SubBlockDef) :
    Option (Option JValue) :=
  if sbDef.id = "language" ∧ simType = "function" then
    some (some (JValue.jstr "javascript"))
  else none

/-- Strategy 6: for slot id "condition", serialization of a structured
`conditions` parameter. -/
def strategyConditionSerialize (node : N8NNode) (sbDef : SubBlockDef) :
    Option (Option JValue) :=
  if sbDef.id = "condition" ∧ truthyOpt (lookupParam node "conditions") = true then
    some (some (JValue.jstr
      (jsonStringify ((lookupParam node "conditions").getD JValue.jnull))))
  else none

/-- Strategy 7: the slot definition's own declared default (a fixed value
or a computed-on-demand function). -/
def strategyDeclaredDefault (sbDef : SubBlockDef) : Option (Option JValue) :=
  match sbDef.value with
  | .computed f => some (some (f ()))
  | .fixed v => some (some v)
  | .absent => none

/-- The full ordered strategy chain of the specification: the first
strategy that yields a defined value wins, otherwise the slot value is
null. -/
def specSlotValue (node : N8NNode) (simType : String) (sbDef : SubBlockDef) :
    Option JValue :=
  (firstSome
    [strategyExactKey node sbDef,
     strategyCodeAlternates node sbDef,
     strategyMessageAlternates node sbDef,
     strategyToAlternate node sbDef,
     strategyLanguageDefault simType sbDef,
     strategyConditionSerialize node sbDef,
     strategyDeclaredDefault sbDef]).getD (some JValue.jnull)

/-! ## Invariants of the conversion pass -/

/-- Every name binding of the id map points at an existing block. -/
def ResolvableMap (m : List (String × Nat)) (blocks : List (Nat × SimBlock)) : Prop :=
  ∀ p ∈ m, ∃ b, recordGet blocks p.2 = some b

/-- Every emitted edge's endpoints are keys of the blocks record. -/
def EdgesOk (blocks : List (Nat × SimBlock)) (edges : List SimEdge) : Prop :=
  ∀ e ∈ edges, (∃ b, recordGet blocks e.source = some b) ∧
    (∃ b, recordGet blocks e.target = some b)

/-- The invariant of the node-translation pass: block keys stay below the
fresh-id counter and the id map only binds existing blocks. -/
def Step1Inv (st : NodeConvState) : Prop :=
  (∀ q ∈ st.blocks, q.1 < st.counter) ∧ ResolvableMap st.nodeIdMap st.blocks

/-! ## Result extractors (used by witnesses) -/

/-- The workflow of a successful result, with a default for failures. -/
def resultWorkflowD : MigrationResult → SimWorkflow → SimWorkflow
  | .success wf2 _, _ => wf2
  | .failure _, d => d

/-- The warnings of a successful result. -/
def resultWarningsD : MigrationResult → Option (List String)
  | .success _ w => w
  | .failure _ => none

/-- An inert default workflow for the extractors. -/
def wEmptyWf : SimWorkflow := ⟨"", "", ⟨[], [], ⟨"", "", ""⟩⟩⟩

/-- Witness fixtures: a conditional source block, a resolvable target and a
branch index of 1. -/
def wCondBlock : SimBlock :=
  { id := 0, type := "condition", name := "A", position := (0, 0), enabled := true,
    horizontalHandles := true, advancedMode := false, triggerMode := true,
    height := 259, subBlocks := [], outputs := [], layout := (250, 259) }

def wBlocks : List (Nat × SimBlock) := [(0, wCondBlock)]

def wMap : List (String × Nat) := [("B", 1)]

def wConn : N8NConnection := ⟨"B", "main", 0⟩

def wEdge : SimEdge :=
  { id := 5, source := 0, target := 1, sourceHandle := "condition-cond-else",
    targetHandle := "target", type := "default" }

def wSt : EdgeConvState := ⟨5, [], []⟩

def wSt2 : EdgeConvState := ⟨6, [wEdge], []⟩

/-- A registry with no block definitions in which every type exists. -/
def wReg : Registry := ⟨fun _ => none, fun _ => true⟩

/-- A registry in which no type exists. -/
def wRegAllInvalid : Registry := ⟨fun _ => none, fun _ => false⟩

def wStEmpty : NodeConvState := ⟨0, [], [], []⟩

def wNodeA : N8NNode := ⟨"A", "n8n-nodes-base.if", (0, 0), [], 1⟩

def wNodeB : N8NNode := ⟨"B", "x.y", (1, 1), [], 1⟩

def wNodeB2 : N8NNode := ⟨"B", "n8n-nodes-base.code", (3, 3), [], 1⟩

def wNodeS : N8NNode := ⟨"S", "n8n-nodes-base.stickyNote", (2, 2), [], 1⟩

/-- A two-node workflow with one connection. -/
def wWf : N8NWorkflow := ⟨some "w", [wNodeA, wNodeB], [("A", ⟨some [[⟨"B", "main", 0⟩]]⟩)]⟩

/-- A workflow containing a sticky note. -/
def wWfSticky : N8NWorkflow := ⟨none, [wNodeA, wNodeS], []⟩

/-- A workflow with two distinct nodes sharing the name "B". -/
def wWfDup : N8NWorkflow := ⟨none, [wNodeA, wNodeB, wNodeB2], []⟩

/-- A declared slot with id "code" and no default. -/
def wSubDefCode : SubBlockDef := ⟨"code", "code", .absent⟩

/-- A declared slot with id "language" and a fixed default. -/
def wSubDefLang : SubBlockDef := ⟨"language", "dropdown", .fixed (JValue.jstr "python")⟩

def wBlockDef : BlockDef := ⟨some [wSubDefCode, wSubDefLang], none⟩

/-- A registry that declares slots for the type "function" only. -/
def wRegWithDefs : Registry :=
  ⟨fun t => if t = "function" then some wBlockDef else none, fun _ => true⟩

/-- A code node whose sole parameter is the alternate key `jsCode`. -/
def wNodeCode : N8NNode :=
  ⟨"C", "n8n-nodes-base.code", (0, 0), [("jsCode", JValue.jstr "x()")], 1⟩

/-- A 101-character string. -/
def wLongStr : String := String.mk (List.replicate 101 'a')

/-- A node with one long string parameter and one numeric parameter. -/
def wNodeParams : N8NNode :=
  ⟨"P", "x.y", (0, 0), [("a", JValue.jstr wLongStr), ("b", JValue.jnum 5)], 1⟩

/-- A structurally valid node value. -/
def wGoodNode : JValue :=
  .jobj [("name", .jstr "A"), ("type", .jstr "t"),
         ("position", .jarr [.jnum 0, .jnum 1])]

/-- A node value with an empty type string. -/
def wBadNode : JValue :=
  .jobj [("name", .jstr "B"), ("type", .jstr ""), ("position", .jarr [.jnum 0])]

/-- A structurally valid workflow value. -/
def wGoodWfJson : JValue :=
  .jobj [("nodes", .jarr [wGoodNode]), ("connections", .jobj [])]

/-- A workflow value whose second node is invalid. -/
def wBadWfJson : JValue :=
  .jobj [("nodes", .jarr [wGoodNode, wBadNode]), ("connections", .jobj [])]

/-- A workflow value whose nodes array contains `null`. -/
def wNullNodeWf : JValue :=
  .jobj [("nodes", .jarr [JValue.jnull]), ("connections", .jobj [])]

/-! # Theorems -/

/-! ### Supporting lemmas about splitting and snake-casing -/

theorem splitOnDot_cons_dot (rest : List Char) :
    splitOnDot ('.' :: rest) = [] :: splitOnDot rest := by
  simp [splitOnDot]

theorem splitOnDot_cons_ne (c : Char) (rest : List Char) (h : ¬ c = '.') :
    splitOnDot (c :: rest) =
      match splitOnDot rest with
      | s :: ss => (c :: s) :: ss
      | [] => [[c]] := by
  simp [splitOnDot, h]

theorem splitOnDot_ne_nil (l : List Char) : splitOnDot l ≠ [] := by
  induction l with
  | nil => simp [splitOnDot]
  | cons c rest ih =>
    by_cases h : c = '.'
    · subst h; rw [splitOnDot_cons_dot]; simp
    · rw [splitOnDot_cons_ne c rest h]
      cases hsp : splitOnDot rest with
      | nil => exact absurd hsp ih
      | cons s ss => simp

theorem splitOnDot_length_gt_one_iff (l : List Char) :
    (splitOnDot l).length > 1 ↔ '.' ∈ l := by
  induction l with
  | nil => simp [splitOnDot]
  | cons c rest ih =>
    by_cases h : c = '.'
    · subst h
      rw [splitOnDot_cons_dot]
      simp only [List.length_cons, List.mem_cons]
      constructor
      · intro _; exact Or.inl trivial
      · intro _
        have := List.length_pos.mpr (splitOnDot_ne_nil rest)
        omega
    · rw [splitOnDot_cons_ne c rest h]
      cases hsp : splitOnDot rest with
      | nil => exact absurd hsp (splitOnDot_ne_nil rest)
      | cons s ss =>
        rw [hsp] at ih
        simp only [List.length_cons, List.mem_cons] at ih ⊢
        constructor
        · intro hlen; right; exact ih.mp hlen
        · intro hmem
          rcases hmem with heq | hmem
          · exact absurd heq.symm h
          · exact ih.mpr hmem

theorem afterLastDot_of_not_mem (l : List Char) (h : '.' ∉ l) :
    afterLastDot l = l := by
  cases l with
  | nil => rfl
  | cons c rest => simp [afterLastDot, h]

theorem splitOnDot_lastSegment (l : List Char) :
    lastSegment (splitOnDot l) = afterLastDot l := by
  induction l with
  | nil => rfl
  | cons c rest ih =>
    by_cases h : c = '.'
    · subst h
      rw [splitOnDot_cons_dot]
      cases hsp : splitOnDot rest with
      | nil => exact absurd hsp (splitOnDot_ne_nil rest)
      | cons s ss =>
        rw [hsp] at ih
        have hstep : lastSegment ([] :: s :: ss) = lastSegment (s :: ss) := rfl
        rw [hstep, ih]
        have hmem : ('.' : Char) ∈ '.' :: rest := List.mem_cons_self _ _
        simp [afterLastDot, hmem]
    · rw [splitOnDot_cons_ne c rest h]
      cases hsp : splitOnDot rest with
      | nil => exact absurd hsp (splitOnDot_ne_nil rest)
      | cons s ss =>
        rw [hsp] at ih
        cases hss : ss with
        | nil =>
          subst hss
          have hnm : '.' ∉ rest := by
            intro hmem
            have hGt := (splitOnDot_length_gt_one_iff rest).mpr hmem
            rw [hsp] at hGt
            simp at hGt
          have hmem2 : '.' ∉ c :: rest := by
            intro hmem
            rcases List.mem_cons.mp hmem with heq | hmem
            · exact h heq.symm
            · exact hnm hmem
          rw [afterLastDot_of_not_mem _ hmem2]
          rw [afterLastDot_of_not_mem _ hnm] at ih
          simp only [lastSegment] at ih ⊢
          rw [ih]
        | cons t ts =>
          subst hss
          have hstep : lastSegment ((c :: s) :: t :: ts) = lastSegment (t :: ts) := rfl
          have hstep2 : lastSegment (s :: t :: ts) = lastSegment (t :: ts) := rfl
          rw [hstep, ← hstep2, ih]
          have hmem : '.' ∈ rest :=
            (splitOnDot_length_gt_one_iff rest).mp (by rw [hsp]; simp)
          have hmem2 : '.' ∈ c :: rest := List.mem_cons_of_mem _ hmem
          simp [afterLastDot, hmem2]

theorem insertUnderscores_map_lower (l : List Char) :
    (insertUnderscores l).map lowerAscii = snakeAllChars l := by
  induction l with
  | nil => rfl
  | cons c rest ih =>
    unfold insertUnderscores snakeAllChars
    have hund : lowerAscii '_' = '_' := by decide
    by_cases h : isAsciiUpper c
    · simp [h, hund, ih]
    · simp [h, ih]

/-- C1: the type-resolution claim, amended. For every source type string:
a type present in the static mapping table resolves to the first matching
entry's target type and default height; otherwise a type containing the
namespace separator resolves to its last segment snake-cased with an
underscore inserted before EVERY uppercase letter — including a leading
one — and height 230; otherwise to the generic fallback type with
height 143. -/
theorem c1_type_resolution (s : String) :
    getSimBlockType s =
      match BLOCK_TYPE_MAPPINGS.find? (fun m => m.n8nType = s) with
      | some m => ⟨m.simType, m.defaultHeight⟩
      | none =>
        if '.' ∈ s.toList then
          ⟨snakeCaseAllSpec (String.mk (afterLastDot s.toList)), 230⟩
        else ⟨"function", 143⟩ := by
  unfold getSimBlockType
  cases hf : BLOCK_TYPE_MAPPINGS.find? (fun m => m.n8nType = s) with
  | some m => rfl
  | none =>
    simp only []
    by_cases h : '.' ∈ s.toList
    · rw [if_pos ((splitOnDot_length_gt_one_iff s.toList).mpr h), if_pos h]
      rw [splitOnDot_lastSegment, insertUnderscores_map_lower]
      rfl
    · rw [if_neg (fun hlen => h ((splitOnDot_length_gt_one_iff s.toList).mp hlen)),
        if_neg h]

/-- C1 counterexample: the claim says the heuristic branch inserts an
underscore only before each INTERNAL uppercase letter, so for
"custom.Webhook" it prescribes target type "webhook"; the code returns
"_webhook" (the regex also fires on a leading uppercase letter). -/
theorem c1_counterexample :
    BLOCK_TYPE_MAPPINGS.find? (fun m => m.n8nType = "custom.Webhook") = none ∧
    '.' ∈ ("custom.Webhook" : String).toList ∧
    claimSnakeInternal (String.mk (afterLastDot ("custom.Webhook" : String).toList)) =
      "webhook" ∧
    getSimBlockType "custom.Webhook" = ⟨"_webhook", 230⟩ ∧
    ¬ (getSimBlockType "custom.Webhook" =
        ⟨claimSnakeInternal (String.mk (afterLastDot ("custom.Webhook" : String).toList)),
          230⟩) := by
  refine ⟨by decide, by decide, by decide, by decide, by decide⟩

/-! ## Association-list lemmas -/

theorem recordGet_cons {κ α : Type} [DecidableEq κ] (p : κ × α) (r : List (κ × α)) (k : κ) :
    recordGet (p :: r) k = if p.1 = k then some p.2 else recordGet r k := by
  by_cases h : p.1 = k
  · simp [recordGet, List.find?, h]
  · simp only [recordGet, List.find?, h]
    simp [h]

theorem recordGet_recordSet_self {κ α : Type} [DecidableEq κ]
    (r : List (κ × α)) (k : κ) (v : α) : recordGet (recordSet r k v) k = some v := by
  induction r with
  | nil => simp [recordSet, recordGet_cons]
  | cons p r ih =>
    unfold recordSet
    by_cases h : p.1 = k
    · simp [h, recordGet_cons]
    · simp [h, recordGet_cons, ih]

theorem recordGet_recordSet_ne {κ α : Type} [DecidableEq κ]
    (r : List (κ × α)) (k k2 : κ) (v : α) (h : ¬ k = k2) :
    recordGet (recordSet r k v) k2 = recordGet r k2 := by
  induction r with
  | nil => simp [recordSet, recordGet_cons, h, recordGet]
  | cons p r ih =>
    unfold recordSet
    by_cases hp : p.1 = k
    · rw [if_pos hp, recordGet_cons, recordGet_cons, if_neg h, hp, if_neg]
      exact fun hc => h (hp ▸ hc)
    · rw [if_neg hp, recordGet_cons, recordGet_cons, ih]

theorem mem_recordSet {κ α : Type} [DecidableEq κ]
    (r : List (κ × α)) (k : κ) (v : α) (p : κ × α) (hp : p ∈ recordSet r k v) :
    p = (k, v) ∨ p ∈ r := by
  induction r with
  | nil =>
    simp [recordSet] at hp
    exact Or.inl hp
  | cons q r ih =>
    unfold recordSet at hp
    by_cases hq : q.1 = k
    · rw [if_pos hq] at hp
      rcases List.mem_cons.mp hp with h | h
      · exact Or.inl h
      · exact Or.inr (List.mem_cons_of_mem _ h)
    · rw [if_neg hq] at hp
      rcases List.mem_cons.mp hp with h | h
      · exact Or.inr (h ▸ List.mem_cons_self _ _)
      · rcases ih h with h2 | h2
        · exact Or.inl h2
        · exact Or.inr (List.mem_cons_of_mem _ h2)

theorem recordGet_append_left {κ α : Type} [DecidableEq κ]
    (r r2 : List (κ × α)) (k : κ) (v : α) (h : recordGet r k = some v) :
    recordGet (r ++ r2) k = some v := by
  induction r with
  | nil => simp [recordGet] at h
  | cons p r ih =>
    rw [recordGet_cons] at h
    rw [List.cons_append, recordGet_cons]
    by_cases hp : p.1 = k
    · rw [if_pos hp] at h ⊢; exact h
    · rw [if_neg hp] at h ⊢; exact ih h

theorem recordGet_append_of_none {κ α : Type} [DecidableEq κ]
    (r r2 : List (κ × α)) (k : κ) (h : recordGet r k = none) :
    recordGet (r ++ r2) k = recordGet r2 k := by
  induction r with
  | nil => simp
  | cons p r ih =>
    rw [recordGet_cons] at h
    rw [List.cons_append, recordGet_cons]
    by_cases hp : p.1 = k
    · rw [if_pos hp] at h; exact absurd h (by simp)
    · rw [if_neg hp] at h ⊢; exact ih h

theorem recordGet_eq_none_of_keys {κ α : Type} [DecidableEq κ]
    (r : List (κ × α)) (k : κ) (h : ∀ p ∈ r, ¬ p.1 = k) : recordGet r k = none := by
  induction r with
  | nil => rfl
  | cons p r ih =>
    rw [recordGet_cons, if_neg (h p (List.mem_cons_self _ _))]
    exact ih (fun q hq => h q (List.mem_cons_of_mem _ hq))

theorem recordGet_mem {κ α : Type} [DecidableEq κ]
    (r : List (κ × α)) (k : κ) (v : α) (h : recordGet r k = some v) : (k, v) ∈ r := by
  induction r with
  | nil => simp [recordGet] at h
  | cons p r ih =>
    rw [recordGet_cons] at h
    by_cases hp : p.1 = k
    · rw [if_pos hp] at h
      have : p = (k, v) := by
        cases p with
        | mk a b =>
          simp at hp
          simp at h
          rw [hp, h]
      exact this ▸ List.mem_cons_self _ _
    · rw [if_neg hp] at h
      exact List.mem_cons_of_mem _ (ih h)

theorem recordSet_eq_append_of_fresh {κ α : Type} [DecidableEq κ]
    (r : List (κ × α)) (k : κ) (v : α) (h : ∀ p ∈ r, ¬ p.1 = k) :
    recordSet r k v = r ++ [(k, v)] := by
  induction r with
  | nil => rfl
  | cons p r ih =>
    unfold recordSet
    rw [if_neg (h p (List.mem_cons_self _ _)), List.cons_append,
      ih (fun q hq => h q (List.mem_cons_of_mem _ hq))]

/-- `foldl` of fresh-key assignments over an empty record is just a `map`:
used for the slot-construction loops, whose keys are pairwise distinct. -/
theorem foldl_recordSet_eq_map {β α : Type} (key : β → String) (val : β → α)
    (l : List β) (acc : List (String × α))
    (hn : (l.map key).Nodup) (hacc : ∀ x ∈ l, ∀ q ∈ acc, ¬ q.1 = key x) :
    l.foldl (fun acc x => recordSet acc (key x) (val x)) acc =
      acc ++ l.map (fun x => (key x, val x)) := by
  induction l generalizing acc with
  | nil => simp
  | cons x rest ih =>
    simp only [List.foldl_cons]
    rw [recordSet_eq_append_of_fresh _ _ _ (hacc x (List.mem_cons_self _ _))]
    rw [List.map_cons] at hn
    have hn2 := List.nodup_cons.mp hn
    have hacc2 : ∀ y ∈ rest, ∀ q ∈ acc ++ [(key x, val x)], ¬ q.1 = key y := by
      intro y hy q hq
      rcases List.mem_append.mp hq with h | h
      · exact hacc y (List.mem_cons_of_mem _ hy) q h
      · have hq2 : q = (key x, val x) := by simpa using h
        rw [hq2]
        intro hc
        have hc2 : key x = key y := hc
        exact hn2.1 (hc2 ▸ List.mem_map_of_mem key hy)
    rw [ih (acc ++ [(key x, val x)]) hn2.2 hacc2]
    simp

/-! ## C8: trigger classification -/

/-- C8: for every source node type and every position in the source node
list, the trigger classification (with `index === 0` as the is-first-node
signal) is true if and only if the type is in the fixed set of known
trigger types, or ends with the literal suffix "Trigger", or the node is
at index 0. -/
theorem c8_trigger_classification (nodeType : String) (idx : Nat) :
    isTriggerNode nodeType (decide (idx = 0)) = true ↔
      (nodeType ∈ knownTriggerTypes ∨ nodeType.endsWith "Trigger" = true ∨ idx = 0) := by
  unfold isTriggerNode
  split_ifs with h1 h2
  · simp only [true_iff]
    exact Or.inl h1
  · simp only [true_iff]
    exact Or.inr (Or.inl h2)
  · simp only [decide_eq_true_eq]
    constructor
    · intro h
      exact Or.inr (Or.inr h)
    · intro h
      rcases h with h | h | h
      · exact absurd h h1
      · exact absurd h h2
      · exact h

/-! ## C2: edge handles -/

/-- C2: for every edge emitted by the connection-translation step, the
target handle is the fixed generic input handle "target"; when the source
block's type is the conditional type "condition" the source handle is the
"true" branch handle exactly for branch index 0 and the "else" branch
handle for every other index; for any other source block type the source
handle is the single generic handle "source". -/
theorem c2_edge_source_handles (blocks : List (Nat × SimBlock))
    (nodeIdMap : List (String × Nat)) (sourceId outputIndex : Nat)
    (conn : N8NConnection) (st st2 : EdgeConvState) (e : SimEdge)
    (hok : convertSingleConnection blocks nodeIdMap sourceId outputIndex conn st =
      .ok st2)
    (hnew : st2.edges = st.edges ++ [e]) :
    ∃ sourceBlock, recordGet blocks sourceId = some sourceBlock ∧
      e.targetHandle = "target" ∧
      (sourceBlock.type = "condition" →
        ((outputIndex = 0 → e.sourceHandle = "condition-cond-true") ∧
         (¬ outputIndex = 0 → e.sourceHandle = "condition-cond-else"))) ∧
      (¬ sourceBlock.type = "condition" → e.sourceHandle = "source") := by
  unfold convertSingleConnection at hok
  cases ht : recordGet nodeIdMap conn.node with
  | none =>
    rw [ht] at hok
    simp only [Except.ok.injEq] at hok
    rw [← hok] at hnew
    simp at hnew
  | some targetId =>
    rw [ht] at hok
    cases hs : recordGet blocks sourceId with
    | none =>
      rw [hs] at hok
      simp at hok
    | some sb =>
      rw [hs] at hok
      simp only [Except.ok.injEq] at hok
      rw [← hok] at hnew
      simp only [List.append_cancel_left_eq, List.cons.injEq, and_true] at hnew
      refine ⟨sb, rfl, ?_, ?_, ?_⟩
      · rw [← hnew]
      · intro hcond
        constructor
        · intro hz
          rw [← hnew]
          simp [hcond, hz]
        · intro hz
          rw [← hnew]
          simp [hcond, hz]
      · intro hcond
        rw [← hnew]
        simp [hcond]

/-- C2 witness: the theorem applied at the concrete fixture. -/
theorem c2_edge_source_handles_witness :
    ∃ sourceBlock, recordGet wBlocks 0 = some sourceBlock ∧
      wEdge.targetHandle = "target" ∧
      (sourceBlock.type = "condition" →
        (((1 : Nat) = 0 → wEdge.sourceHandle = "condition-cond-true") ∧
         (¬ (1 : Nat) = 0 → wEdge.sourceHandle = "condition-cond-else"))) ∧
      (¬ sourceBlock.type = "condition" → wEdge.sourceHandle = "source") :=
  c2_edge_source_handles wBlocks wMap 0 1 wConn wSt wSt2 wEdge rfl rfl

/-! ## Phase-1 lemmas -/

theorem processNode_sticky (reg : Registry) (st : NodeConvState) (idx : Nat)
    (n : N8NNode) (h : n.type = "n8n-nodes-base.stickyNote") :
    processNode reg st idx n = st := by
  unfold processNode
  rw [if_pos h]

theorem processNode_retained (reg : Registry) (st : NodeConvState) (idx : Nat)
    (n : N8NNode) (h : ¬ n.type = "n8n-nodes-base.stickyNote") :
    processNode reg st idx n =
      { counter := st.counter + 1,
        nodeIdMap := recordSet st.nodeIdMap n.name st.counter,
        blocks := st.blocks ++ [(st.counter, blockForNode reg st.counter idx n)],
        warnings := st.warnings ++ warningsForNode reg n } := by
  unfold processNode
  rw [if_neg h]

theorem processNode_inv (reg : Registry) (st : NodeConvState) (idx : Nat) (n : N8NNode)
    (h : Step1Inv st) : Step1Inv (processNode reg st idx n) := by
  by_cases hs : n.type = "n8n-nodes-base.stickyNote"
  · rw [processNode_sticky reg st idx n hs]
    exact h
  · rw [processNode_retained reg st idx n hs]
    constructor
    · intro q hq
      rcases List.mem_append.mp hq with h2 | h2
      · exact Nat.lt_succ_of_lt (h.1 q h2)
      · have h3 : q = (st.counter, blockForNode reg st.counter idx n) := by
          simpa using h2
        rw [h3]
        exact Nat.lt_succ_self _
    · intro p hp
      rcases mem_recordSet _ _ _ _ hp with h2 | h2
      · rw [h2]
        refine ⟨blockForNode reg st.counter idx n, ?_⟩
        rw [recordGet_append_of_none]
        · simp [recordGet_cons]
        · exact recordGet_eq_none_of_keys _ _
            (fun q hq => Nat.ne_of_lt (h.1 q hq))
      · obtain ⟨b, hb⟩ := h.2 p h2
        exact ⟨b, recordGet_append_left _ _ _ _ hb⟩

theorem processNodes_inv (reg : Registry) :
    ∀ (nodes : List N8NNode) (st : NodeConvState) (idx : Nat),
    Step1Inv st → Step1Inv (processNodes reg st idx nodes)
  | [], _, _, h => h
  | n :: rest, st, idx, h =>
    processNodes_inv reg rest (processNode reg st idx n) (idx + 1)
      (processNode_inv reg st idx n h)

/-! ## Phase-2 lemmas -/

theorem convertSingleConnection_ok (blocks : List (Nat × SimBlock))
    (m : List (String × Nat)) (sourceId outputIndex : Nat) (conn : N8NConnection)
    (st : EdgeConvState) (hsrc : ∃ b, recordGet blocks sourceId = some b)
    (hE : EdgesOk blocks st.edges) (hm : ResolvableMap m blocks) :
    ∃ st2, convertSingleConnection blocks m sourceId outputIndex conn st = .ok st2 ∧
      EdgesOk blocks st2.edges := by
  unfold convertSingleConnection
  cases ht : recordGet m conn.node with
  | none => exact ⟨_, rfl, hE⟩
  | some targetId =>
    obtain ⟨sb, hsb⟩ := hsrc
    rw [hsb]
    refine ⟨_, rfl, ?_⟩
    intro e he
    rcases List.mem_append.mp he with h2 | h2
    · exact hE e h2
    · have h3 : e.source = sourceId ∧ e.target = targetId := by
        have h4 := List.mem_singleton.mp h2
        rw [h4]
        exact ⟨rfl, rfl⟩
      constructor
      · exact h3.1 ▸ ⟨sb, hsb⟩
      · exact h3.2 ▸ hm (conn.node, targetId) (recordGet_mem _ _ _ ht)

theorem convertGroup_ok (blocks : List (Nat × SimBlock)) (m : List (String × Nat))
    (sourceId outputIndex : Nat) :
    ∀ (group : List N8NConnection) (st : EdgeConvState),
    (∃ b, recordGet blocks sourceId = some b) → EdgesOk blocks st.edges →
    ResolvableMap m blocks →
    ∃ st2, convertGroup blocks m sourceId outputIndex group st = .ok st2 ∧
      EdgesOk blocks st2.edges
  | [], st, _, hE, _ => ⟨st, rfl, hE⟩
  | cn :: rest, st, hsrc, hE, hm => by
    obtain ⟨st2, h2, hE2⟩ :=
      convertSingleConnection_ok blocks m sourceId outputIndex cn st hsrc hE hm
    obtain ⟨st3, h3, hE3⟩ :=
      convertGroup_ok blocks m sourceId outputIndex rest st2 hsrc hE2 hm
    refine ⟨st3, ?_, hE3⟩
    unfold convertGroup
    rw [h2]
    exact h3

theorem convertGroups_ok (blocks : List (Nat × SimBlock)) (m : List (String × Nat))
    (sourceId : Nat) :
    ∀ (outputIndex : Nat) (groups : List (List N8NConnection)) (st : EdgeConvState),
    (∃ b, recordGet blocks sourceId = some b) → EdgesOk blocks st.edges →
    ResolvableMap m blocks →
    ∃ st2, convertGroups blocks m sourceId outputIndex groups st = .ok st2 ∧
      EdgesOk blocks st2.edges
  | _, [], st, _, hE, _ => ⟨st, rfl, hE⟩
  | outputIndex, g :: gs, st, hsrc, hE, hm => by
    obtain ⟨st2, h2, hE2⟩ := convertGroup_ok blocks m sourceId outputIndex g st hsrc hE hm
    obtain ⟨st3, h3, hE3⟩ :=
      convertGroups_ok blocks m sourceId (outputIndex + 1) gs st2 hsrc hE2 hm
    refine ⟨st3, ?_, hE3⟩
    unfold convertGroups
    rw [h2]
    exact h3

theorem convertConnectionEntry_ok (blocks : List (Nat × SimBlock))
    (m : List (String × Nat)) (entry : String × ConnectionData) (st : EdgeConvState)
    (hE : EdgesOk blocks st.edges) (hm : ResolvableMap m blocks) :
    ∃ st2, convertConnectionEntry blocks m entry st = .ok st2 ∧
      EdgesOk blocks st2.edges := by
  unfold convertConnectionEntry
  cases hs : recordGet m entry.1 with
  | none => exact ⟨_, rfl, hE⟩
  | some sourceId =>
    have hsrc : ∃ b, recordGet blocks sourceId = some b :=
      hm (entry.1, sourceId) (recordGet_mem _ _ _ hs)
    exact convertGroups_ok blocks m sourceId 0 (entry.2.main.getD []) st hsrc hE hm

theorem convertConnectionEntries_ok (blocks : List (Nat × SimBlock))
    (m : List (String × Nat)) :
    ∀ (entries : List (String × ConnectionData)) (st : EdgeConvState),
    EdgesOk blocks st.edges → ResolvableMap m blocks →
    ∃ st2, convertConnectionEntries blocks m entries st = .ok st2 ∧
      EdgesOk blocks st2.edges
  | [], st, hE, _ => ⟨st, rfl, hE⟩
  | e :: es, st, hE, hm => by
    obtain ⟨st2, h2, hE2⟩ := convertConnectionEntry_ok blocks m e st hE hm
    obtain ⟨st3, h3, hE3⟩ := convertConnectionEntries_ok blocks m es st2 hE2 hm
    refine ⟨st3, ?_, hE3⟩
    unfold convertConnectionEntries
    rw [h2]
    exact h3

/-! ## Totality and success shape of the conversion -/

theorem convertPhases_success (now : String) (wf : N8NWorkflow) (s1 : NodeConvState)
    (hm : ResolvableMap s1.nodeIdMap s1.blocks) :
    ∃ s2, convertConnectionEntries s1.blocks s1.nodeIdMap wf.connections
        ⟨s1.counter, [], s1.warnings⟩ = .ok s2 ∧
      EdgesOk s1.blocks s2.edges ∧
      convertPhases now wf s1 =
        .success (assembleWorkflow now wf s1.blocks s2.edges)
          (if s2.warnings.length > 0 then some s2.warnings else none) := by
  obtain ⟨s2, h2, hE2⟩ :=
    convertConnectionEntries_ok s1.blocks s1.nodeIdMap wf.connections
      ⟨s1.counter, [], s1.warnings⟩ (by intro e he; cases he) hm
  refine ⟨s2, h2, hE2, ?_⟩
  unfold convertPhases
  rw [h2]

theorem convertN8NToSim_success (reg : Registry) (now : String) (wf : N8NWorkflow) :
    ∃ s2 : EdgeConvState, convertN8NToSim reg now wf =
        .success
          (assembleWorkflow now wf (processNodes reg ⟨0, [], [], []⟩ 0 wf.nodes).blocks
            s2.edges)
          (if s2.warnings.length > 0 then some s2.warnings else none) ∧
      EdgesOk (processNodes reg ⟨0, [], [], []⟩ 0 wf.nodes).blocks s2.edges := by
  have hInv : Step1Inv (processNodes reg ⟨0, [], [], []⟩ 0 wf.nodes) :=
    processNodes_inv reg wf.nodes ⟨0, [], [], []⟩ 0
      ⟨fun q hq => absurd hq (List.not_mem_nil q),
       fun p hp => absurd hp (List.not_mem_nil p)⟩
  obtain ⟨s2, _, hE2, h3⟩ :=
    convertPhases_success now wf (processNodes reg ⟨0, [], [], []⟩ 0 wf.nodes) hInv.2
  refine ⟨s2, ?_, hE2⟩
  unfold convertN8NToSim
  exact h3

/-! ## C3: edge endpoints and dangling references -/

/-- C3: in every successful conversion the source and target of every
emitted edge are block ids present in the result's blocks map; a
connection entry whose source name does not resolve produces exactly one
warning and skips the whole group (no edge); an unresolved target name
produces exactly one warning, skips only that entry, and processing
continues with the remaining siblings of the branch. -/
theorem c3_edge_endpoints_and_dangling :
    (∀ (reg : Registry) (now : String) (wf : N8NWorkflow) (wf2 : SimWorkflow)
       (w : Option (List String)),
      convertN8NToSim reg now wf = .success wf2 w →
      ∀ e ∈ wf2.state.edges,
        (∃ b, recordGet wf2.state.blocks e.source = some b) ∧
        (∃ b, recordGet wf2.state.blocks e.target = some b)) ∧
    (∀ (blocks : List (Nat × SimBlock)) (m : List (String × Nat)) (name : String)
       (cd : ConnectionData) (st : EdgeConvState),
      recordGet m name = none →
      convertConnectionEntry blocks m (name, cd) st =
        .ok ⟨st.counter, st.edges, st.warnings ++ [sourceNotFoundWarning name]⟩) ∧
    (∀ (blocks : List (Nat × SimBlock)) (m : List (String × Nat))
       (sourceId outputIndex : Nat) (conn : N8NConnection) (rest : List N8NConnection)
       (st : EdgeConvState),
      recordGet m conn.node = none →
      convertGroup blocks m sourceId outputIndex (conn :: rest) st =
        convertGroup blocks m sourceId outputIndex rest
          ⟨st.counter, st.edges, st.warnings ++ [targetNotFoundWarning conn.node]⟩) := by
  refine ⟨?_, ?_, ?_⟩
  · intro reg now wf wf2 w h e he
    obtain ⟨s2, hs, hE⟩ := convertN8NToSim_success reg now wf
    rw [h] at hs
    injection hs with h1 h2
    rw [h1] at he ⊢
    exact hE e he
  · intro blocks m name cd st h
    unfold convertConnectionEntry
    rw [h]
  · intro blocks m sourceId outputIndex conn rest st h
    have hsc : convertSingleConnection blocks m sourceId outputIndex conn st =
        .ok ⟨st.counter, st.edges, st.warnings ++ [targetNotFoundWarning conn.node]⟩ := by
      unfold convertSingleConnection
      rw [h]
    show (do
      let st2 ← convertSingleConnection blocks m sourceId outputIndex conn st
      convertGroup blocks m sourceId outputIndex rest st2) = _
    rw [hsc]
    rfl

/-- C3 witness: the theorem applied to a concrete successful conversion, a
concrete unresolved source entry and a concrete unresolved target entry. -/
theorem c3_witness :
    (∀ e ∈ (resultWorkflowD (convertN8NToSim wReg "t" wWf) wEmptyWf).state.edges,
      (∃ b, recordGet (resultWorkflowD (convertN8NToSim wReg "t" wWf) wEmptyWf).state.blocks
          e.source = some b) ∧
      (∃ b, recordGet (resultWorkflowD (convertN8NToSim wReg "t" wWf) wEmptyWf).state.blocks
          e.target = some b)) ∧
    convertConnectionEntry wBlocks [] ("X", ⟨none⟩) wSt =
      .ok ⟨wSt.counter, wSt.edges, wSt.warnings ++ [sourceNotFoundWarning "X"]⟩ ∧
    convertGroup wBlocks [] 0 0 [wConn] wSt =
      convertGroup wBlocks [] 0 0 []
        ⟨wSt.counter, wSt.edges, wSt.warnings ++ [targetNotFoundWarning wConn.node]⟩ :=
  ⟨c3_edge_endpoints_and_dangling.1 wReg "t" wWf _ _ rfl,
   c3_edge_endpoints_and_dangling.2.1 wBlocks [] "X" ⟨none⟩ wSt rfl,
   c3_edge_endpoints_and_dangling.2.2 wBlocks [] 0 0 wConn [] wSt rfl⟩

/-! ## C5: unavailable block types -/

/-- C5: for every retained node whose resolved type fails the Type
Existence Check, the emitted block has the generic fallback type
"function" with height 143 and exactly one warning is pushed, whose text
names both the unavailable resolved type and the original node; the
conversion always returns a success result (an unavailable type never
aborts the run). -/
theorem c5_unavailable_type :
    (∀ (reg : Registry) (st : NodeConvState) (idx : Nat) (n : N8NNode),
      ¬ n.type = "n8n-nodes-base.stickyNote" →
      reg.isValidBlockType (getSimBlockType n.type).simType = false →
      ∃ blk : SimBlock,
        processNode reg st idx n =
          { counter := st.counter + 1,
            nodeIdMap := recordSet st.nodeIdMap n.name st.counter,
            blocks := st.blocks ++ [(st.counter, blk)],
            warnings := st.warnings ++
              [unavailableTypeWarning (getSimBlockType n.type).simType n.name n.type] } ∧
        blk.type = "function" ∧ blk.height = 143) ∧
    (∀ (t name ty : String),
      unavailableTypeWarning t name ty =
        "Block type \"" ++ t ++ "\" not available in Sim. Node \"" ++ name ++ "\" (" ++
          ty ++ ") converted to function block.") ∧
    (∀ (reg : Registry) (now : String) (wf : N8NWorkflow),
      ∃ wf2 w, convertN8NToSim reg now wf = .success wf2 w) := by
  refine ⟨?_, fun t name ty => rfl, ?_⟩
  · intro reg st idx n h1 h2
    refine ⟨blockForNode reg st.counter idx n, ?_, ?_, ?_⟩
    · rw [processNode_retained reg st idx n h1]
      unfold warningsForNode
      rw [h2]
      simp
    · unfold blockForNode mkSimBlock
      simp [h2]
    · unfold blockForNode mkSimBlock
      simp [h2]
  · intro reg now wf
    obtain ⟨s2, hs, _⟩ := convertN8NToSim_success reg now wf
    exact ⟨_, _, hs⟩

/-- C5 witness: a node of type "x.y" under a registry that rejects every
type, and the always-success conjunct at a concrete workflow. -/
theorem c5_witness :
    (∃ blk : SimBlock,
      processNode wRegAllInvalid wStEmpty 0 wNodeB =
        { counter := wStEmpty.counter + 1,
          nodeIdMap := recordSet wStEmpty.nodeIdMap wNodeB.name wStEmpty.counter,
          blocks := wStEmpty.blocks ++ [(wStEmpty.counter, blk)],
          warnings := wStEmpty.warnings ++
            [unavailableTypeWarning (getSimBlockType wNodeB.type).simType wNodeB.name
              wNodeB.type] } ∧
      blk.type = "function" ∧ blk.height = 143) ∧
    (∃ wf2 w, convertN8NToSim wRegAllInvalid "t" wWf = .success wf2 w) :=
  ⟨c5_unavailable_type.1 wRegAllInvalid wStEmpty 0 wNodeB (by decide) rfl,
   c5_unavailable_type.2.2 wRegAllInvalid "t" wWf⟩

/-! ## Counting and binding lemmas for phase 1 -/

theorem length_filter_not_add {α : Type} (P : α → Bool) (l : List α) :
    (l.filter P).length + (l.filter (fun x => ! P x)).length = l.length := by
  induction l with
  | nil => rfl
  | cons a l ih =>
    cases h : P a with
    | true =>
      simp [List.filter_cons, h]
      omega
    | false =>
      simp [List.filter_cons, h]
      omega

theorem processNodes_blocks_length (reg : Registry) :
    ∀ (nodes : List N8NNode) (st : NodeConvState) (idx : Nat),
    (processNodes reg st idx nodes).blocks.length =
      st.blocks.length +
        (nodes.filter
          (fun n => ! decide (n.type = "n8n-nodes-base.stickyNote"))).length
  | [], st, idx => by simp [processNodes]
  | n :: rest, st, idx => by
    by_cases h : n.type = "n8n-nodes-base.stickyNote"
    · show (processNodes reg (processNode reg st idx n) (idx + 1) rest).blocks.length = _
      rw [processNode_sticky reg st idx n h]
      rw [processNodes_blocks_length reg rest st (idx + 1)]
      simp [List.filter_cons, h]
    · show (processNodes reg (processNode reg st idx n) (idx + 1) rest).blocks.length = _
      rw [processNode_retained reg st idx n h]
      rw [processNodes_blocks_length reg rest _ (idx + 1)]
      simp only [List.filter_cons, h, decide_False, Bool.not_false, if_true,
        List.length_cons, List.length_append, List.length_cons, List.length_nil]
      omega

theorem processNodes_map_none (reg : Registry) :
    ∀ (nodes : List N8NNode) (st : NodeConvState) (idx : Nat) (name : String),
    recordGet st.nodeIdMap name = none →
    (∀ n ∈ nodes, n.name = name → n.type = "n8n-nodes-base.stickyNote") →
    recordGet (processNodes reg st idx nodes).nodeIdMap name = none
  | [], _, _, _, h, _ => h
  | n :: rest, st, idx, name, h, hall => by
    by_cases hs : n.type = "n8n-nodes-base.stickyNote"
    · show recordGet
        (processNodes reg (processNode reg st idx n) (idx + 1) rest).nodeIdMap name = none
      rw [processNode_sticky reg st idx n hs]
      exact processNodes_map_none reg rest st (idx + 1) name h
        (fun m hm => hall m (List.mem_cons_of_mem _ hm))
    · have hname : ¬ n.name = name := fun hn => hs (hall n (List.mem_cons_self _ _) hn)
      show recordGet
        (processNodes reg (processNode reg st idx n) (idx + 1) rest).nodeIdMap name = none
      rw [processNode_retained reg st idx n hs]
      refine processNodes_map_none reg rest _ (idx + 1) name ?_
        (fun m hm => hall m (List.mem_cons_of_mem _ hm))
      show recordGet (recordSet st.nodeIdMap n.name st.counter) name = none
      rw [recordGet_recordSet_ne _ _ _ _ hname]
      exact h

theorem processNodes_append (reg : Registry) :
    ∀ (l1 l2 : List N8NNode) (st : NodeConvState) (idx : Nat),
    processNodes reg st idx (l1 ++ l2) =
      processNodes reg (processNodes reg st idx l1) (idx + l1.length) l2
  | [], l2, st, idx => by simp [processNodes]
  | n :: rest, l2, st, idx => by
    show processNodes reg (processNode reg st idx n) (idx + 1) (rest ++ l2) = _
    rw [processNodes_append reg rest l2 (processNode reg st idx n) (idx + 1)]
    have harith : idx + 1 + rest.length = idx + (n :: rest).length := by
      simp only [List.length_cons]
      omega
    rw [harith]
    rfl

theorem processNodes_append_zero (reg : Registry) (l1 l2 : List N8NNode)
    (st : NodeConvState) :
    processNodes reg st 0 (l1 ++ l2) =
      processNodes reg (processNodes reg st 0 l1) l1.length l2 := by
  rw [processNodes_append reg l1 l2 st 0, Nat.zero_add]

theorem processNodes_preserve_binding (reg : Registry) :
    ∀ (post : List N8NNode) (st : NodeConvState) (idx : Nat) (name : String) (id : Nat)
      (blk : SimBlock),
    Step1Inv st →
    recordGet st.nodeIdMap name = some id →
    recordGet st.blocks id = some blk →
    (∀ m ∈ post, m.name = name → m.type = "n8n-nodes-base.stickyNote") →
    recordGet (processNodes reg st idx post).nodeIdMap name = some id ∧
      recordGet (processNodes reg st idx post).blocks id = some blk
  | [], _, _, _, _, _, _, h1, h2, _ => ⟨h1, h2⟩
  | n :: rest, st, idx, name, id, blk, hInv, h1, h2, hall => by
    by_cases hs : n.type = "n8n-nodes-base.stickyNote"
    · show recordGet
          (processNodes reg (processNode reg st idx n) (idx + 1) rest).nodeIdMap name =
          some id ∧
        recordGet (processNodes reg (processNode reg st idx n) (idx + 1) rest).blocks
          id = some blk
      rw [processNode_sticky reg st idx n hs]
      exact processNodes_preserve_binding reg rest st (idx + 1) name id blk hInv h1 h2
        (fun m hm => hall m (List.mem_cons_of_mem _ hm))
    · have hname : ¬ n.name = name := fun hn => hs (hall n (List.mem_cons_self _ _) hn)
      show recordGet
          (processNodes reg (processNode reg st idx n) (idx + 1) rest).nodeIdMap name =
          some id ∧
        recordGet (processNodes reg (processNode reg st idx n) (idx + 1) rest).blocks
          id = some blk
      refine processNodes_preserve_binding reg rest _ (idx + 1) name id blk
        (processNode_inv reg st idx n hInv) ?_ ?_
        (fun m hm => hall m (List.mem_cons_of_mem _ hm))
      · rw [processNode_retained reg st idx n hs]
        show recordGet (recordSet st.nodeIdMap n.name st.counter) name = some id
        rw [recordGet_recordSet_ne _ _ _ _ hname]
        exact h1
      · rw [processNode_retained reg st idx n hs]
        show recordGet
          (st.blocks ++ [(st.counter, blockForNode reg st.counter idx n)]) id = some blk
        exact recordGet_append_left _ _ _ _ h2

/-! ## C4: sticky notes and the block count -/

/-- C4: in every successful conversion the number of blocks equals the
number of source nodes minus the number of sticky-note nodes; a
sticky-note node leaves the translation state untouched (dropped
silently, no warning, no id-map entry); and a name carried only by
sticky-note nodes is absent from the name → id map, so connections
referencing it are unresolved. -/
theorem c4_block_count :
    (∀ (reg : Registry) (now : String) (wf : N8NWorkflow) (wf2 : SimWorkflow)
       (w : Option (List String)),
      convertN8NToSim reg now wf = .success wf2 w →
      wf2.state.blocks.length =
        wf.nodes.length -
          (wf.nodes.filter (fun n => n.type = "n8n-nodes-base.stickyNote")).length) ∧
    (∀ (reg : Registry) (st : NodeConvState) (idx : Nat) (n : N8NNode),
      n.type = "n8n-nodes-base.stickyNote" → processNode reg st idx n = st) ∧
    (∀ (reg : Registry) (wf : N8NWorkflow) (name : String),
      (∀ n ∈ wf.nodes, n.name = name → n.type = "n8n-nodes-base.stickyNote") →
      recordGet (processNodes reg ⟨0, [], [], []⟩ 0 wf.nodes).nodeIdMap name = none) := by
  refine ⟨?_, processNode_sticky, ?_⟩
  · intro reg now wf wf2 w h
    obtain ⟨s2, hs, _⟩ := convertN8NToSim_success reg now wf
    rw [h] at hs
    injection hs with h1 h2
    rw [h1]
    show (processNodes reg ⟨0, [], [], []⟩ 0 wf.nodes).blocks.length = _
    rw [processNodes_blocks_length reg wf.nodes ⟨0, [], [], []⟩ 0]
    have hsplit :=
      length_filter_not_add (fun n => decide (n.type = "n8n-nodes-base.stickyNote"))
        wf.nodes
    simp only [List.length_nil]
    omega
  · intro reg wf name hall
    exact processNodes_map_none reg wf.nodes ⟨0, [], [], []⟩ 0 name rfl hall

/-- C4 witness: the theorem applied to a concrete workflow with one sticky
note. -/
theorem c4_block_count_witness :
    (resultWorkflowD (convertN8NToSim wReg "t" wWfSticky) wEmptyWf).state.blocks.length =
      wWfSticky.nodes.length -
        (wWfSticky.nodes.filter
          (fun n => n.type = "n8n-nodes-base.stickyNote")).length ∧
    processNode wReg wStEmpty 0 wNodeS = wStEmpty ∧
    recordGet (processNodes wReg ⟨0, [], [], []⟩ 0 wWfSticky.nodes).nodeIdMap "S" =
      none :=
  ⟨c4_block_count.1 wReg "t" wWfSticky _ _ rfl,
   c4_block_count.2.1 wReg wStEmpty 0 wNodeS rfl,
   c4_block_count.2.2 wReg wWfSticky "S" (by decide)⟩

/-! ## C10: duplicate node names -/

/-- C10: the number of blocks is one per retained node even when several
retained nodes share a name (blocks are keyed by fresh ids); and after
phase 1 the name → id map binds a shared name to the block generated for
the LAST retained node carrying it, whose block is stored under the
counter value reached after the preceding nodes. -/
theorem c10_duplicate_names :
    (∀ (reg : Registry) (now : String) (wf : N8NWorkflow) (wf2 : SimWorkflow)
       (w : Option (List String)),
      convertN8NToSim reg now wf = .success wf2 w →
      wf2.state.blocks.length =
        (wf.nodes.filter
          (fun n => ¬ n.type = "n8n-nodes-base.stickyNote")).length) ∧
    (∀ (reg : Registry) (pre : List N8NNode) (n : N8NNode) (post : List N8NNode),
      ¬ n.type = "n8n-nodes-base.stickyNote" →
      (∀ m ∈ post, m.name = n.name → m.type = "n8n-nodes-base.stickyNote") →
      recordGet
          (processNodes reg ⟨0, [], [], []⟩ 0 (pre ++ n :: post)).nodeIdMap n.name =
        some (processNodes reg ⟨0, [], [], []⟩ 0 pre).counter ∧
      recordGet (processNodes reg ⟨0, [], [], []⟩ 0 (pre ++ n :: post)).blocks
          (processNodes reg ⟨0, [], [], []⟩ 0 pre).counter =
        some (blockForNode reg (processNodes reg ⟨0, [], [], []⟩ 0 pre).counter
          pre.length n)) := by
  constructor
  · intro reg now wf wf2 w h
    obtain ⟨s2, hs, _⟩ := convertN8NToSim_success reg now wf
    rw [h] at hs
    injection hs with h1 h2
    rw [h1]
    show (processNodes reg ⟨0, [], [], []⟩ 0 wf.nodes).blocks.length = _
    rw [processNodes_blocks_length reg wf.nodes ⟨0, [], [], []⟩ 0]
    have hcongr : wf.nodes.filter
          (fun n => ! decide (n.type = "n8n-nodes-base.stickyNote")) =
        wf.nodes.filter (fun n => ¬ n.type = "n8n-nodes-base.stickyNote") := by
      apply List.filter_congr
      intro a _
      simp
    rw [hcongr]
    simp
  · intro reg pre n post hn hall
    have hInvPre : Step1Inv (processNodes reg ⟨0, [], [], []⟩ 0 pre) :=
      processNodes_inv reg pre ⟨0, [], [], []⟩ 0
        ⟨fun q hq => absurd hq (List.not_mem_nil q),
         fun p hp => absurd hp (List.not_mem_nil p)⟩
    rw [processNodes_append_zero reg pre (n :: post) ⟨0, [], [], []⟩]
    show recordGet
        (processNodes reg
          (processNode reg (processNodes reg ⟨0, [], [], []⟩ 0 pre) pre.length n)
          (pre.length + 1) post).nodeIdMap n.name = _ ∧ _
    have hmap : recordGet
        (processNode reg (processNodes reg ⟨0, [], [], []⟩ 0 pre) pre.length
          n).nodeIdMap n.name =
        some (processNodes reg ⟨0, [], [], []⟩ 0 pre).counter := by
      rw [processNode_retained reg _ _ n hn]
      exact recordGet_recordSet_self _ _ _
    have hblocks : recordGet
        (processNode reg (processNodes reg ⟨0, [], [], []⟩ 0 pre) pre.length
          n).blocks (processNodes reg ⟨0, [], [], []⟩ 0 pre).counter =
        some (blockForNode reg (processNodes reg ⟨0, [], [], []⟩ 0 pre).counter
          pre.length n) := by
      rw [processNode_retained reg _ _ n hn]
      show recordGet
          ((processNodes reg ⟨0, [], [], []⟩ 0 pre).blocks ++
            [((processNodes reg ⟨0, [], [], []⟩ 0 pre).counter,
              blockForNode reg (processNodes reg ⟨0, [], [], []⟩ 0 pre).counter
                pre.length n)])
          (processNodes reg ⟨0, [], [], []⟩ 0 pre).counter = _
      rw [recordGet_append_of_none _ _ _
        (recordGet_eq_none_of_keys _ _ (fun q hq => Nat.ne_of_lt (hInvPre.1 q hq)))]
      simp [recordGet_cons]
    exact processNodes_preserve_binding reg post
      (processNode reg (processNodes reg ⟨0, [], [], []⟩ 0 pre) pre.length n)
      (pre.length + 1) n.name (processNodes reg ⟨0, [], [], []⟩ 0 pre).counter
      (blockForNode reg (processNodes reg ⟨0, [], [], []⟩ 0 pre).counter
        pre.length n)
      (processNode_inv reg _ _ n hInvPre) hmap hblocks hall

/-- C10 witness: a workflow in which two retained nodes share the name
"B"; the map binds "B" to the block of the later node. -/
theorem c10_duplicate_names_witness :
    (resultWorkflowD (convertN8NToSim wReg "t" wWfDup) wEmptyWf).state.blocks.length =
      (wWfDup.nodes.filter
        (fun n => ¬ n.type = "n8n-nodes-base.stickyNote")).length ∧
    (recordGet
        (processNodes wReg ⟨0, [], [], []⟩ 0
          ([wNodeA, wNodeB] ++ wNodeB2 :: [])).nodeIdMap wNodeB2.name =
      some (processNodes wReg ⟨0, [], [], []⟩ 0 [wNodeA, wNodeB]).counter ∧
    recordGet
        (processNodes wReg ⟨0, [], [], []⟩ 0 ([wNodeA, wNodeB] ++ wNodeB2 :: [])).blocks
        (processNodes wReg ⟨0, [], [], []⟩ 0 [wNodeA, wNodeB]).counter =
      some (blockForNode wReg (processNodes wReg ⟨0, [], [], []⟩ 0 [wNodeA, wNodeB]).counter
        [wNodeA, wNodeB].length wNodeB2)) :=
  ⟨c10_duplicate_names.1 wReg "t" wWfDup _ _ rfl,
   c10_duplicate_names.2 wReg [wNodeA, wNodeB] wNodeB2 [] (by decide)
     (fun m hm => absurd hm (List.not_mem_nil m))⟩

/-! ## C6/C7: sub-block extraction -/

/-- The inline if/else chain of the source computes exactly the ordered
strategy chain of the specification. -/
theorem computeSlotValue_eq_spec (node : N8NNode) (simType : String)
    (sbDef : SubBlockDef) :
    computeSlotValue node simType sbDef = specSlotValue node simType sbDef := by
  cases h1 : lookupParam node sbDef.id with
  | some v =>
    simp [computeSlotValue, specSlotValue, strategyExactKey, firstSome, h1]
  | none =>
    by_cases h2 : sbDef.id = "code"
    · rw [h2] at h1
      simp [computeSlotValue, specSlotValue, strategyExactKey, strategyCodeAlternates,
        firstSome, h1, h2]
    · by_cases h3 : sbDef.id = "message" ∧
          (truthyOpt (lookupParam node "text") = true ∨
           truthyOpt (lookupParam node "body") = true)
      · rw [h3.1] at h1
        simp [computeSlotValue, specSlotValue, strategyExactKey, strategyCodeAlternates,
          strategyMessageAlternates, firstSome, h1, h2, h3]
      · by_cases h4 : sbDef.id = "to" ∧ truthyOpt (lookupParam node "sendTo") = true
        · rw [h4.1] at h1
          simp [computeSlotValue, specSlotValue, strategyExactKey,
            strategyCodeAlternates, strategyMessageAlternates, strategyToAlternate,
            firstSome, h1, h2, h3, h4]
        · by_cases h5 : sbDef.id = "language" ∧ simType = "function"
          · rw [h5.1] at h1
            simp [computeSlotValue, specSlotValue, strategyExactKey,
              strategyCodeAlternates, strategyMessageAlternates, strategyToAlternate,
              strategyLanguageDefault, firstSome, h1, h2, h3, h4, h5]
          · by_cases h6 : sbDef.id = "condition" ∧
                truthyOpt (lookupParam node "conditions") = true
            · rw [h6.1] at h1
              simp [computeSlotValue, specSlotValue, strategyExactKey,
                strategyCodeAlternates, strategyMessageAlternates, strategyToAlternate,
                strategyLanguageDefault, strategyConditionSerialize, firstSome,
                h1, h2, h3, h4, h5, h6]
            · cases h7 : sbDef.value with
              | computed f =>
                simp [computeSlotValue, specSlotValue, strategyExactKey,
                  strategyCodeAlternates, strategyMessageAlternates,
                  strategyToAlternate, strategyLanguageDefault,
                  strategyConditionSerialize, strategyDeclaredDefault, firstSome,
                  h1, h2, h3, h4, h5, h6, h7]
              | fixed v =>
                simp [computeSlotValue, specSlotValue, strategyExactKey,
                  strategyCodeAlternates, strategyMessageAlternates,
                  strategyToAlternate, strategyLanguageDefault,
                  strategyConditionSerialize, strategyDeclaredDefault, firstSome,
                  h1, h2, h3, h4, h5, h6, h7]
              | absent =>
                simp [computeSlotValue, specSlotValue, strategyExactKey,
                  strategyCodeAlternates, strategyMessageAlternates,
                  strategyToAlternate, strategyLanguageDefault,
                  strategyConditionSerialize, strategyDeclaredDefault, firstSome,
                  h1, h2, h3, h4, h5, h6, h7]

theorem map_congr_fn {α β : Type} (f g : α → β) (l : List α)
    (h : ∀ a ∈ l, f a = g a) : l.map f = l.map g := by
  induction l with
  | nil => rfl
  | cons a l ih =>
    simp only [List.map_cons, h a (List.mem_cons_self _ _)]
    rw [ih (fun a ha => h a (List.mem_cons_of_mem _ ha))]

/-- C6: for a resolved type with declared sub-block definitions (with
distinct slot ids), the produced sub-block record has exactly one entry
per declared definition, in declaration order, each carrying the declared
slot type and the value of the ordered strategy chain (exact key, code
alternates, message alternates, "to" alternate, language default,
condition serialization, declared default, null) — slots are never
omitted. -/
theorem c6_declared_subblocks (reg : Registry) (node : N8NNode) (simType : String)
    (bd : BlockDef) (defs : List SubBlockDef)
    (h1 : reg.getBlock simType = some bd) (h2 : bd.subBlocks = some defs)
    (h3 : (defs.map (fun d => d.id)).Nodup) :
    convertParametersToSubBlocks reg node simType =
      defs.map (fun d =>
        (d.id, { id := d.id, type := d.type,
                 value := specSlotValue node simType d })) ∧
    (convertParametersToSubBlocks reg node simType).length = defs.length := by
  have hbind : (reg.getBlock simType).bind (fun bd => bd.subBlocks) = some defs := by
    rw [h1]
    exact h2
  have hmain : convertParametersToSubBlocks reg node simType =
      defs.map (fun d =>
        (d.id, { id := d.id, type := d.type,
                 value := specSlotValue node simType d })) := by
    unfold convertParametersToSubBlocks
    rw [hbind]
    show defs.foldl
      (fun acc d => recordSet acc d.id
        ({ id := d.id, type := d.type,
           value := computeSlotValue node simType d } : SimSubBlock)) [] =
      defs.map (fun d =>
        (d.id, ({ id := d.id, type := d.type,
                  value := specSlotValue node simType d } : SimSubBlock)))
    have h4 := foldl_recordSet_eq_map (fun d : SubBlockDef => d.id)
      (fun d => ({ id := d.id, type := d.type,
                   value := computeSlotValue node simType d } : SimSubBlock))
      defs [] h3 (fun x _ q hq => absurd hq (List.not_mem_nil q))
    simp only [List.nil_append] at h4
    rw [h4]
    exact map_congr_fn _ _ defs
      (fun d _ => by rw [computeSlotValue_eq_spec node simType d])
  exact ⟨hmain, by rw [hmain, List.length_map]⟩

/-- C7: for a resolved type without declared sub-block definitions, the
produced record has exactly one generic slot per source parameter, whose
value is the parameter value and whose slot type is the long-form text
type exactly when the value is a string strictly longer than 100
characters, and the short-form text type otherwise. -/
theorem c7_fallback_subblocks (reg : Registry) (node : N8NNode) (simType : String)
    (h1 : (reg.getBlock simType).bind (fun bd => bd.subBlocks) = none)
    (h2 : (node.parameters.map (fun p => p.1)).Nodup) :
    convertParametersToSubBlocks reg node simType =
      node.parameters.map (fun p => (p.1, fallbackSubBlock p.1 p.2)) ∧
    ∀ (k : String) (v : JValue),
      (fallbackSubBlock k v).id = k ∧ (fallbackSubBlock k v).value = some v ∧
      ((fallbackSubBlock k v).type = "long-input" ↔
        ∃ s, v = JValue.jstr s ∧ s.length > 100) ∧
      ((fallbackSubBlock k v).type = "long-input" ∨
        (fallbackSubBlock k v).type = "short-input") := by
  constructor
  · unfold convertParametersToSubBlocks
    rw [h1]
    have h3 := foldl_recordSet_eq_map (fun p : String × JValue => p.1)
      (fun p => fallbackSubBlock p.1 p.2) node.parameters []
      h2 (fun x _ q hq => absurd hq (List.not_mem_nil q))
    simpa using h3
  · intro k v
    refine ⟨rfl, rfl, ?_, ?_⟩
    · cases v with
      | jstr s =>
        by_cases h : s.length > 100
        · have ht : (fallbackSubBlock k (JValue.jstr s)).type = "long-input" := by
            simp [fallbackSubBlock, h]
          rw [ht]
          constructor
          · intro _
            exact ⟨s, rfl, h⟩
          · intro _
            rfl
        · have ht : (fallbackSubBlock k (JValue.jstr s)).type = "short-input" := by
            simp [fallbackSubBlock, h]
          rw [ht]
          constructor
          · intro hc
            exact absurd hc (by decide)
          · rintro ⟨s2, hs2, hlen⟩
            injection hs2 with hs3
            exact absurd (by rw [hs3]; exact hlen) h
      | jnull =>
        rw [show (fallbackSubBlock k JValue.jnull).type = "short-input" from rfl]
        constructor
        · intro hc
          exact absurd hc (by decide)
        · rintro ⟨s2, hs2, _⟩
          cases hs2
      | jbool b =>
        rw [show (fallbackSubBlock k (JValue.jbool b)).type = "short-input" from rfl]
        constructor
        · intro hc
          exact absurd hc (by decide)
        · rintro ⟨s2, hs2, _⟩
          cases hs2
      | jnum m =>
        rw [show (fallbackSubBlock k (JValue.jnum m)).type = "short-input" from rfl]
        constructor
        · intro hc
          exact absurd hc (by decide)
        · rintro ⟨s2, hs2, _⟩
          cases hs2
      | jarr xs =>
        rw [show (fallbackSubBlock k (JValue.jarr xs)).type = "short-input" from rfl]
        constructor
        · intro hc
          exact absurd hc (by decide)
        · rintro ⟨s2, hs2, _⟩
          cases hs2
      | jobj fs =>
        rw [show (fallbackSubBlock k (JValue.jobj fs)).type = "short-input" from rfl]
        constructor
        · intro hc
          exact absurd hc (by decide)
        · rintro ⟨s2, hs2, _⟩
          cases hs2
    · cases v with
      | jstr s =>
        by_cases h : s.length > 100
        · exact Or.inl (by simp [fallbackSubBlock, h])
        · exact Or.inr (by simp [fallbackSubBlock, h])
      | jnull => exact Or.inr rfl
      | jbool b => exact Or.inr rfl
      | jnum m => exact Or.inr rfl
      | jarr xs => exact Or.inr rfl
      | jobj fs => exact Or.inr rfl

/-- C6 witness: a registry declaring slots "code" and "language" for the
type "function", applied to a node carrying only a `jsCode` parameter. -/
theorem c6_declared_subblocks_witness :
    convertParametersToSubBlocks wRegWithDefs wNodeCode "function" =
      [wSubDefCode, wSubDefLang].map (fun d =>
        (d.id, { id := d.id, type := d.type,
                 value := specSlotValue wNodeCode "function" d })) ∧
    (convertParametersToSubBlocks wRegWithDefs wNodeCode "function").length =
      [wSubDefCode, wSubDefLang].length :=
  c6_declared_subblocks wRegWithDefs wNodeCode "function" wBlockDef
    [wSubDefCode, wSubDefLang] rfl rfl (by decide)

/-- C7 witness: a registry without block definitions, applied to a node
with a 101-character string parameter and a numeric parameter. -/
theorem c7_fallback_subblocks_witness :
    convertParametersToSubBlocks wReg wNodeParams "y" =
      wNodeParams.parameters.map (fun p => (p.1, fallbackSubBlock p.1 p.2)) ∧
    ∀ (k : String) (v : JValue),
      (fallbackSubBlock k v).id = k ∧ (fallbackSubBlock k v).value = some v ∧
      ((fallbackSubBlock k v).type = "long-input" ↔
        ∃ s, v = JValue.jstr s ∧ s.length > 100) ∧
      ((fallbackSubBlock k v).type = "long-input" ∨
        (fallbackSubBlock k v).type = "short-input") :=
  c7_fallback_subblocks wReg wNodeParams "y" rfl (by decide)

/-! ## C9: structural validation -/

theorem nodeNameOk_iff (n : JValue) :
    nodeNameOk n = true ↔
      ¬ (truthyOpt (getField n "name") = false ∨
         jsIsString (getField n "name") = false) := by
  unfold nodeNameOk
  cases h : getField n "name" with
  | none => simp [truthyOpt, jsIsString]
  | some v => cases v <;> simp [truthyOpt, jsTruthy, jsIsString]

theorem nodeTypeOk_iff (n : JValue) :
    nodeTypeOk n = true ↔
      ¬ (truthyOpt (getField n "type") = false ∨
         jsIsString (getField n "type") = false) := by
  unfold nodeTypeOk
  cases h : getField n "type" with
  | none => simp [truthyOpt, jsIsString]
  | some v => cases v <;> simp [truthyOpt, jsTruthy, jsIsString]

theorem nodePosOk_iff (n : JValue) :
    nodePosOk n = true ↔
      ¬ (truthyOpt (getField n "position") = false ∨
         jsIsArray (getField n "position") = false ∨
         ¬ jsArrayLen (getField n "position") = 2) := by
  unfold nodePosOk
  cases h : getField n "position" with
  | none => simp [truthyOpt, jsIsArray]
  | some v => cases v <;> simp [truthyOpt, jsTruthy, jsIsArray, jsArrayLen]

theorem isNonNullObject_iff (data : JValue) :
    isNonNullObject data = true ↔
      ¬ (jsTruthy data = false ∨ jsTypeofIsObject data = false) := by
  cases data <;> simp [isNonNullObject, jsTruthy, jsTypeofIsObject]

theorem nodesField_iff (f : Option JValue) :
    ¬ (truthyOpt f = false ∨ jsIsArray f = false) ↔
      ∃ l, f = some (JValue.jarr l) := by
  cases f with
  | none => simp [truthyOpt, jsIsArray]
  | some v => cases v <;> simp [truthyOpt, jsTruthy, jsIsArray]

theorem connField_iff (f : Option JValue) :
    ¬ (truthyOpt f = false ∨ jsTypeofIsObjectOpt f = false) ↔
      ∃ c, f = some c ∧ isNonNullObject c = true := by
  cases f with
  | none => simp [truthyOpt, jsTypeofIsObjectOpt]
  | some v =>
    cases v <;> simp [truthyOpt, jsTruthy, jsTypeofIsObjectOpt, jsTypeofIsObject,
      isNonNullObject]

theorem not_specNodeOk_null : ¬ specNodeOk JValue.jnull :=
  fun h => absurd h.1 (by decide)

/-- Reduction of the per-node loop on a non-null head: the null throw is
not taken and the source's three checks run. -/
theorem validateNodes_cons_of_ne_null (n : JValue) (rest : List JValue)
    (h : ¬ n = JValue.jnull) :
    validateNodes (n :: rest) =
      (if truthyOpt (getField n "name") = false ∨
          jsIsString (getField n "name") = false then
        .ok ⟨false, some "Invalid node: missing or invalid \"name\" field"⟩
      else if truthyOpt (getField n "type") = false ∨
          jsIsString (getField n "type") = false then
        .ok ⟨false, some ("Invalid node \"" ++ nodeNameString n ++
          "\": missing or invalid \"type\" field")⟩
      else if truthyOpt (getField n "position") = false ∨
          jsIsArray (getField n "position") = false ∨
          ¬ jsArrayLen (getField n "position") = 2 then
        .ok ⟨false, some ("Invalid node \"" ++ nodeNameString n ++
          "\": missing or invalid \"position\" field")⟩
      else validateNodes rest) := by
  cases n with
  | jnull => exact absurd rfl h
  | jbool b => rfl
  | jnum m => rfl
  | jstr s => rfl
  | jarr xs => rfl
  | jobj fs => rfl

theorem validateNodes_spec : ∀ (nodes : List JValue),
    (validateNodes nodes = .ok ⟨true, none⟩ ↔ ∀ n ∈ nodes, specNodeOk n) ∧
    (∀ (pre : List JValue) (n : JValue) (post : List JValue),
      nodes = pre ++ n :: post → (∀ m ∈ pre, specNodeOk m) →
      ¬ n = JValue.jnull → ¬ specNodeOk n →
      validateNodes nodes = .ok ⟨false, some (firstNodeFailureMsg n)⟩) ∧
    (∀ (pre post : List JValue),
      nodes = pre ++ JValue.jnull :: post → (∀ m ∈ pre, specNodeOk m) →
      validateNodes nodes = .error "Cannot read properties of null (reading 'name')")
  | [] => by
    refine ⟨by simp [validateNodes], ?_, ?_⟩
    · intro pre n post h _ _ _
      cases pre <;> simp at h
    · intro pre post h _
      cases pre <;> simp at h
  | m :: rest => by
    have IH := validateNodes_spec rest
    by_cases hnull : m = JValue.jnull
    · subst hnull
      have hval : validateNodes (JValue.jnull :: rest) =
          .error "Cannot read properties of null (reading 'name')" := rfl
      refine ⟨?_, ?_, ?_⟩
      · rw [hval]
        constructor
        · intro hc
          exact absurd hc (by simp)
        · intro hall
          exact (not_specNodeOk_null (hall _ (List.mem_cons_self _ _))).elim
      · intro pre n post heq hpre hn hnot
        cases pre with
        | nil =>
          simp only [List.nil_append, List.cons.injEq] at heq
          exact absurd heq.1.symm hn
        | cons p pre2 =>
          simp only [List.cons_append, List.cons.injEq] at heq
          obtain ⟨h1, h2⟩ := heq
          have hp := hpre p (List.mem_cons_self _ _)
          rw [← h1] at hp
          exact (not_specNodeOk_null hp).elim
      · intro pre post heq hpre
        cases pre with
        | nil => exact hval
        | cons p pre2 =>
          simp only [List.cons_append, List.cons.injEq] at heq
          obtain ⟨h1, h2⟩ := heq
          have hp := hpre p (List.mem_cons_self _ _)
          rw [← h1] at hp
          exact (not_specNodeOk_null hp).elim
    · have hcons := validateNodes_cons_of_ne_null m rest hnull
      by_cases hname : truthyOpt (getField m "name") = false ∨
          jsIsString (getField m "name") = false
      · have hno : ¬ nodeNameOk m = true := fun hc => (nodeNameOk_iff m).mp hc hname
        have hval : validateNodes (m :: rest) =
            .ok ⟨false, some "Invalid node: missing or invalid \"name\" field"⟩ := by
          rw [hcons, if_pos hname]
        refine ⟨?_, ?_, ?_⟩
        · rw [hval]
          constructor
          · intro hc
            exact absurd hc (by simp)
          · intro hall
            exact absurd (hall m (List.mem_cons_self _ _)).1 hno
        · intro pre n post heq hpre hn hnot
          cases pre with
          | nil =>
            simp only [List.nil_append, List.cons.injEq] at heq
            obtain ⟨h1, h2⟩ := heq
            subst h1
            rw [hval]
            unfold firstNodeFailureMsg
            rw [if_pos (by revert hno; cases nodeNameOk m <;> simp)]
          | cons p pre2 =>
            simp only [List.cons_append, List.cons.injEq] at heq
            obtain ⟨h1, h2⟩ := heq
            subst h1
            exact absurd (hpre m (List.mem_cons_self _ _)).1 hno
        · intro pre post heq hpre
          cases pre with
          | nil =>
            simp only [List.nil_append, List.cons.injEq] at heq
            exact absurd heq.1 hnull
          | cons p pre2 =>
            simp only [List.cons_append, List.cons.injEq] at heq
            obtain ⟨h1, h2⟩ := heq
            subst h1
            exact absurd (hpre m (List.mem_cons_self _ _)).1 hno
      · have hyes : nodeNameOk m = true := (nodeNameOk_iff m).mpr hname
        by_cases htype : truthyOpt (getField m "type") = false ∨
            jsIsString (getField m "type") = false
        · have hno : ¬ nodeTypeOk m = true := fun hc => (nodeTypeOk_iff m).mp hc htype
          have hval : validateNodes (m :: rest) =
              .ok ⟨false, some ("Invalid node \"" ++ nodeNameString m ++
                "\": missing or invalid \"type\" field")⟩ := by
            rw [hcons, if_neg hname, if_pos htype]
          refine ⟨?_, ?_, ?_⟩
          · rw [hval]
            constructor
            · intro hc
              exact absurd hc (by simp)
            · intro hall
              exact absurd (hall m (List.mem_cons_self _ _)).2.1 hno
          · intro pre n post heq hpre hn hnot
            cases pre with
            | nil =>
              simp only [List.nil_append, List.cons.injEq] at heq
              obtain ⟨h1, h2⟩ := heq
              subst h1
              rw [hval]
              unfold firstNodeFailureMsg
              rw [if_neg (by simp [hyes]),
                if_pos (by revert hno; cases nodeTypeOk m <;> simp)]
            | cons p pre2 =>
              simp only [List.cons_append, List.cons.injEq] at heq
              obtain ⟨h1, h2⟩ := heq
              subst h1
              exact absurd (hpre m (List.mem_cons_self _ _)).2.1 hno
          · intro pre post heq hpre
            cases pre with
            | nil =>
              simp only [List.nil_append, List.cons.injEq] at heq
              exact absurd heq.1 hnull
            | cons p pre2 =>
              simp only [List.cons_append, List.cons.injEq] at heq
              obtain ⟨h1, h2⟩ := heq
              subst h1
              exact absurd (hpre m (List.mem_cons_self _ _)).2.1 hno
        · have hyes2 : nodeTypeOk m = true := (nodeTypeOk_iff m).mpr htype
          by_cases hpos : truthyOpt (getField m "position") = false ∨
              jsIsArray (getField m "position") = false ∨
              ¬ jsArrayLen (getField m "position") = 2
          · have hno : ¬ nodePosOk m = true := fun hc => (nodePosOk_iff m).mp hc hpos
            have hval : validateNodes (m :: rest) =
                .ok ⟨false, some ("Invalid node \"" ++ nodeNameString m ++
                  "\": missing or invalid \"position\" field")⟩ := by
              rw [hcons, if_neg hname, if_neg htype, if_pos hpos]
            refine ⟨?_, ?_, ?_⟩
            · rw [hval]
              constructor
              · intro hc
                exact absurd hc (by simp)
              · intro hall
                exact absurd (hall m (List.mem_cons_self _ _)).2.2 hno
            · intro pre n post heq hpre hn hnot
              cases pre with
              | nil =>
                simp only [List.nil_append, List.cons.injEq] at heq
                obtain ⟨h1, h2⟩ := heq
                subst h1
                rw [hval]
                unfold firstNodeFailureMsg
                rw [if_neg (by simp [hyes]), if_neg (by simp [hyes2])]
              | cons p pre2 =>
                simp only [List.cons_append, List.cons.injEq] at heq
                obtain ⟨h1, h2⟩ := heq
                subst h1
                exact absurd (hpre m (List.mem_cons_self _ _)).2.2 hno
            · intro pre post heq hpre
              cases pre with
              | nil =>
                simp only [List.nil_append, List.cons.injEq] at heq
                exact absurd heq.1 hnull
              | cons p pre2 =>
                simp only [List.cons_append, List.cons.injEq] at heq
                obtain ⟨h1, h2⟩ := heq
                subst h1
                exact absurd (hpre m (List.mem_cons_self _ _)).2.2 hno
          · have hyes3 : nodePosOk m = true := (nodePosOk_iff m).mpr hpos
            have hok : specNodeOk m := ⟨hyes, hyes2, hyes3⟩
            have hval : validateNodes (m :: rest) = validateNodes rest := by
              rw [hcons, if_neg hname, if_neg htype, if_neg hpos]
            refine ⟨?_, ?_, ?_⟩
            · rw [hval, IH.1]
              constructor
              · intro hall n hn
                rcases List.mem_cons.mp hn with h1 | h1
                · exact h1 ▸ hok
                · exact hall n h1
              · intro hall n hn
                exact hall n (List.mem_cons_of_mem _ hn)
            · intro pre n post heq hpre hn hnot
              cases pre with
              | nil =>
                simp only [List.nil_append, List.cons.injEq] at heq
                obtain ⟨h1, h2⟩ := heq
                subst h1
                exact absurd hok hnot
              | cons p pre2 =>
                simp only [List.cons_append, List.cons.injEq] at heq
                obtain ⟨h1, h2⟩ := heq
                subst h1
                rw [hval]
                exact IH.2.1 pre2 n post h2
                  (fun q hq => hpre q (List.mem_cons_of_mem _ hq)) hn hnot
            · intro pre post heq hpre
              cases pre with
              | nil =>
                simp only [List.nil_append, List.cons.injEq] at heq
                exact absurd heq.1 hnull
              | cons p pre2 =>
                simp only [List.cons_append, List.cons.injEq] at heq
                obtain ⟨h1, h2⟩ := heq
                subst h1
                rw [hval]
                exact IH.2.2 pre2 post h2
                  (fun q hq => hpre q (List.mem_cons_of_mem _ hq))

/-- C9, amended: `validateN8NWorkflow` performs its checks in source
order with distinct messages and returns `{valid := true}` exactly when
the input is a non-null object with a non-empty nodes array, an object
connections field, and per-node non-empty string name, non-empty string
type and 2-element array position — EXCEPT that a verdict is not returned
for every input: when the checks reach the per-node loop and the loop
reaches a `null` element (every earlier element having passed), the
single unguarded property access `node.name` throws a TypeError and the
function returns nothing (the `Except.error` case); for every other
input, the verdict record is as the original claim describes. -/
theorem c9_validate (data : JValue) :
    (validateN8NWorkflow data = .ok ⟨true, none⟩ ↔
      (isNonNullObject data = true ∧
       ∃ nodes, getField data "nodes" = some (JValue.jarr nodes) ∧ ¬ nodes = [] ∧
         (∃ conns, getField data "connections" = some conns ∧
           isNonNullObject conns = true) ∧
         ∀ n ∈ nodes, specNodeOk n)) ∧
    (isNonNullObject data = false →
      validateN8NWorkflow data =
        .ok ⟨false, some "Invalid workflow data: must be an object"⟩) ∧
    (isNonNullObject data = true →
      (∀ l, ¬ getField data "nodes" = some (JValue.jarr l)) →
      validateN8NWorkflow data =
        .ok ⟨false, some "Invalid workflow: missing or invalid \"nodes\" array"⟩) ∧
    (isNonNullObject data = true →
      getField data "nodes" = some (JValue.jarr []) →
      validateN8NWorkflow data =
        .ok ⟨false, some "Invalid workflow: must contain at least one node"⟩) ∧
    (∀ nodes, isNonNullObject data = true →
      getField data "nodes" = some (JValue.jarr nodes) → ¬ nodes = [] →
      (∀ c, getField data "connections" = some c → isNonNullObject c = false) →
      validateN8NWorkflow data =
        .ok ⟨false,
          some "Invalid workflow: missing or invalid \"connections\" object"⟩) ∧
    (∀ nodes conns pre n post, isNonNullObject data = true →
      getField data "nodes" = some (JValue.jarr nodes) →
      getField data "connections" = some conns → isNonNullObject conns = true →
      nodes = pre ++ n :: post → (∀ m ∈ pre, specNodeOk m) →
      ¬ n = JValue.jnull → ¬ specNodeOk n →
      validateN8NWorkflow data = .ok ⟨false, some (firstNodeFailureMsg n)⟩) ∧
    (∀ nodes conns pre post, isNonNullObject data = true →
      getField data "nodes" = some (JValue.jarr nodes) →
      getField data "connections" = some conns → isNonNullObject conns = true →
      nodes = pre ++ JValue.jnull :: post → (∀ m ∈ pre, specNodeOk m) →
      validateN8NWorkflow data =
        .error "Cannot read properties of null (reading 'name')") := by
  refine ⟨?_, ?_, ?_, ?_, ?_, ?_, ?_⟩
  · by_cases hc1 : jsTruthy data = false ∨ jsTypeofIsObject data = false
    · have hval : validateN8NWorkflow data =
          .ok ⟨false, some "Invalid workflow data: must be an object"⟩ := by
        unfold validateN8NWorkflow
        rw [if_pos hc1]
      rw [hval]
      constructor
      · intro hc
        exact absurd hc (by simp)
      · rintro ⟨hobj, _⟩
        exact ((isNonNullObject_iff data).mp hobj hc1).elim
    · have hobj : isNonNullObject data = true := (isNonNullObject_iff data).mpr hc1
      by_cases hc2 : truthyOpt (getField data "nodes") = false ∨
          jsIsArray (getField data "nodes") = false
      · have hval : validateN8NWorkflow data =
            .ok ⟨false,
              some "Invalid workflow: missing or invalid \"nodes\" array"⟩ := by
          unfold validateN8NWorkflow
          rw [if_neg hc1, if_pos hc2]
        rw [hval]
        constructor
        · intro hc
          exact absurd hc (by simp)
        · rintro ⟨_, nodes, hn, _⟩
          exact ((nodesField_iff _).mpr ⟨nodes, hn⟩ hc2).elim
      · obtain ⟨l, hl⟩ := (nodesField_iff _).mp hc2
        by_cases hc3 : jsArrayLen (getField data "nodes") = 0
        · have hempty : l = [] := by
            rw [hl] at hc3
            simpa [jsArrayLen] using hc3
          have hval : validateN8NWorkflow data =
              .ok ⟨false, some "Invalid workflow: must contain at least one node"⟩ := by
            unfold validateN8NWorkflow
            rw [if_neg hc1, if_neg hc2, if_pos hc3]
          rw [hval]
          constructor
          · intro hc
            exact absurd hc (by simp)
          · rintro ⟨_, nodes, hn, hne, _⟩
            rw [hl] at hn
            simp only [Option.some.injEq, JValue.jarr.injEq] at hn
            exact (hne (by rw [← hn, hempty])).elim
        · by_cases hc4 : truthyOpt (getField data "connections") = false ∨
              jsTypeofIsObjectOpt (getField data "connections") = false
          · have hval : validateN8NWorkflow data =
                .ok ⟨false,
                  some "Invalid workflow: missing or invalid \"connections\" object"⟩ := by
              unfold validateN8NWorkflow
              rw [if_neg hc1, if_neg hc2, if_neg hc3, if_pos hc4]
            rw [hval]
            constructor
            · intro hc
              exact absurd hc (by simp)
            · rintro ⟨_, nodes, hn, hne, ⟨conns, hcn, hcno⟩, _⟩
              exact ((connField_iff _).mpr ⟨conns, hcn, hcno⟩ hc4).elim
          · obtain ⟨c, hcf, hco⟩ := (connField_iff _).mp hc4
            have hval : validateN8NWorkflow data =
                validateNodes (jsArrayElems (getField data "nodes")) := by
              unfold validateN8NWorkflow
              rw [if_neg hc1, if_neg hc2, if_neg hc3, if_neg hc4]
            have helems : jsArrayElems (getField data "nodes") = l := by
              rw [hl]
              rfl
            have hlne : ¬ l = [] := by
              intro hle
              rw [hl, hle] at hc3
              exact hc3 (by simp [jsArrayLen])
            rw [hval, helems, (validateNodes_spec l).1]
            constructor
            · intro hall
              exact ⟨hobj, l, hl, hlne, ⟨c, hcf, hco⟩, hall⟩
            · rintro ⟨_, nodes, hn, _, _, hall⟩
              rw [hl] at hn
              simp only [Option.some.injEq, JValue.jarr.injEq] at hn
              rw [hn]
              exact hall
  · intro h0
    have hc1 : jsTruthy data = false ∨ jsTypeofIsObject data = false := by
      by_contra hc
      rw [(isNonNullObject_iff data).mpr hc] at h0
      cases h0
    unfold validateN8NWorkflow
    rw [if_pos hc1]
  · intro h0 hno
    have hc1 : ¬ (jsTruthy data = false ∨ jsTypeofIsObject data = false) :=
      (isNonNullObject_iff data).mp h0
    have hc2 : truthyOpt (getField data "nodes") = false ∨
        jsIsArray (getField data "nodes") = false := by
      by_contra hc
      obtain ⟨l, hl⟩ := (nodesField_iff _).mp hc
      exact hno l hl
    unfold validateN8NWorkflow
    rw [if_neg hc1, if_pos hc2]
  · intro h0 hm
    have hc1 : ¬ (jsTruthy data = false ∨ jsTypeofIsObject data = false) :=
      (isNonNullObject_iff data).mp h0
    have hc2 : ¬ (truthyOpt (getField data "nodes") = false ∨
        jsIsArray (getField data "nodes") = false) :=
      (nodesField_iff _).mpr ⟨[], hm⟩
    have hc3 : jsArrayLen (getField data "nodes") = 0 := by
      rw [hm]
      simp [jsArrayLen]
    unfold validateN8NWorkflow
    rw [if_neg hc1, if_neg hc2, if_pos hc3]
  · intro nodes h0 hm hne hcbad
    have hc1 : ¬ (jsTruthy data = false ∨ jsTypeofIsObject data = false) :=
      (isNonNullObject_iff data).mp h0
    have hc2 : ¬ (truthyOpt (getField data "nodes") = false ∨
        jsIsArray (getField data "nodes") = false) :=
      (nodesField_iff _).mpr ⟨nodes, hm⟩
    have hc3 : ¬ jsArrayLen (getField data "nodes") = 0 := by
      rw [hm]
      simp [jsArrayLen]
      intro hc
      exact hne hc
    have hc4 : truthyOpt (getField data "connections") = false ∨
        jsTypeofIsObjectOpt (getField data "connections") = false := by
      by_contra hc
      obtain ⟨c, hcf, hco⟩ := (connField_iff _).mp hc
      rw [hcbad c hcf] at hco
      cases hco
    unfold validateN8NWorkflow
    rw [if_neg hc1, if_neg hc2, if_neg hc3, if_pos hc4]
  · intro nodes conns pre n post h0 hm hcf hco heq hpre hnNull hnot
    have hc1 : ¬ (jsTruthy data = false ∨ jsTypeofIsObject data = false) :=
      (isNonNullObject_iff data).mp h0
    have hc2 : ¬ (truthyOpt (getField data "nodes") = false ∨
        jsIsArray (getField data "nodes") = false) :=
      (nodesField_iff _).mpr ⟨nodes, hm⟩
    have hc3 : ¬ jsArrayLen (getField data "nodes") = 0 := by
      rw [hm]
      simp [jsArrayLen]
      rw [heq]
      simp
    have hc4 : ¬ (truthyOpt (getField data "connections") = false ∨
        jsTypeofIsObjectOpt (getField data "connections") = false) :=
      (connField_iff _).mpr ⟨conns, hcf, hco⟩
    have hval : validateN8NWorkflow data =
        validateNodes (jsArrayElems (getField data "nodes")) := by
      unfold validateN8NWorkflow
      rw [if_neg hc1, if_neg hc2, if_neg hc3, if_neg hc4]
    have helems : jsArrayElems (getField data "nodes") = nodes := by
      rw [hm]
      rfl
    rw [hval, helems]
    exact (validateNodes_spec nodes).2.1 pre n post heq hpre hnNull hnot
  · intro nodes conns pre post h0 hm hcf hco heq hpre
    have hc1 : ¬ (jsTruthy data = false ∨ jsTypeofIsObject data = false) :=
      (isNonNullObject_iff data).mp h0
    have hc2 : ¬ (truthyOpt (getField data "nodes") = false ∨
        jsIsArray (getField data "nodes") = false) :=
      (nodesField_iff _).mpr ⟨nodes, hm⟩
    have hc3 : ¬ jsArrayLen (getField data "nodes") = 0 := by
      rw [hm]
      simp [jsArrayLen]
      rw [heq]
      simp
    have hc4 : ¬ (truthyOpt (getField data "connections") = false ∨
        jsTypeofIsObjectOpt (getField data "connections") = false) :=
      (connField_iff _).mpr ⟨conns, hcf, hco⟩
    have hval : validateN8NWorkflow data =
        validateNodes (jsArrayElems (getField data "nodes")) := by
      unfold validateN8NWorkflow
      rw [if_neg hc1, if_neg hc2, if_neg hc3, if_neg hc4]
    have helems : jsArrayElems (getField data "nodes") = nodes := by
      rw [hm]
      rfl
    rw [hval, helems]
    exact (validateNodes_spec nodes).2.2 pre post heq hpre

/-- C9 counterexample: for the workflow value whose nodes array is
`[null]`, the source's per-node loop evaluates `node.name` on `null` and
throws a TypeError, and `validateN8NWorkflow` has no try/catch — so no
verdict record `{valid, error?}` is returned at this input, refuting
"for every arbitrary input value, validate returns a verdict record". -/
theorem c9_counterexample :
    validateN8NWorkflow wNullNodeWf =
      .error "Cannot read properties of null (reading 'name')" ∧
    ¬ ∃ r : ValidateResult, validateN8NWorkflow wNullNodeWf = .ok r := by
  refine ⟨rfl, ?_⟩
  rintro ⟨r, hr⟩
  have h2 : (Except.error "Cannot read properties of null (reading 'name')" :
      Except String ValidateResult) = .ok r := hr
  cases h2

/-- C9 witness: the amended theorem applied to a valid workflow value, to
`null`, to a workflow whose second node has an empty type string, and to
a workflow whose nodes array contains `null`. -/
theorem c9_validate_witness :
    validateN8NWorkflow wGoodWfJson = .ok ⟨true, none⟩ ∧
    validateN8NWorkflow JValue.jnull =
      .ok ⟨false, some "Invalid workflow data: must be an object"⟩ ∧
    validateN8NWorkflow wBadWfJson =
      .ok ⟨false, some (firstNodeFailureMsg wBadNode)⟩ ∧
    validateN8NWorkflow wNullNodeWf =
      .error "Cannot read properties of null (reading 'name')" :=
  ⟨(c9_validate wGoodWfJson).1.mpr
     ⟨rfl, [wGoodNode], rfl, List.cons_ne_nil _ _, ⟨JValue.jobj [], rfl, rfl⟩,
      by
        intro n hn
        rw [List.mem_singleton.mp hn]
        exact ⟨rfl, rfl, rfl⟩⟩,
   (c9_validate JValue.jnull).2.1 rfl,
   (c9_validate wBadWfJson).2.2.2.2.2.1 [wGoodNode, wBadNode] (JValue.jobj [])
     [wGoodNode] wBadNode [] rfl rfl rfl rfl rfl
     (by
       intro m hm
       rw [List.mem_singleton.mp hm]
       exact ⟨rfl, rfl, rfl⟩)
     (fun h => JValue.noConfusion h)
     (fun h => absurd h.2.1 (by decide)),
   (c9_validate wNullNodeWf).2.2.2.2.2.2 [JValue.jnull] (JValue.jobj []) [] []
     rfl rfl rfl rfl rfl (fun m hm => absurd hm (List.not_mem_nil m))⟩
